import Mathlib

/-!
# The `wt` command-line driver of sprite_sass

A shallow embedding of `src/wt/main.go`: the flag variables, the
per-file loop of `main`, and `startParser`. The style-sheet compiler
(`context.Context.Compile`), the preprocessor (`sprite.Parser.Start`,
`LookupFile`) and the operating system are collaborators of the driver;
they are taken as the fields of a `World` that every theorem quantifies
over. Everything the driver does with them is recorded as a trace of
`Event`s.

Go strings are byte sequences; they are embedded as `List Char`.
-/

namespace Wt

/-- A Go `string`. -/
abbrev Str := List Char

/-- A Go `[]byte`. -/
abbrev Bytes := List Nat

/-! ## The library functions `main` calls on strings and paths -/

namespace strings

/-- Go `strings.HasPrefix(s, p)`. -/
def HasPrefix (s p : Str) : Bool := p.isPrefixOf s

/-- Go `strings.HasSuffix(s, p)`. -/
def HasSuffix (s p : Str) : Bool := p.reverse.isPrefixOf s.reverse

/-- The text before and the text after the first occurrence of `old` in
`s` (`strings.Index`), for a non-empty `old`. -/
def cutFirst (old : Str) : Str → Option (Str × Str)
  | [] => none
  | c :: cs =>
    if old.isPrefixOf (c :: cs) then some ([], (c :: cs).drop old.length)
    else match cutFirst old cs with
      | some (b, a) => some (c :: b, a)
      | none => none

/-- Go `strings.Replace(s, old, new, n)` for `n ≥ 0` and a non-empty
`old`: the first `n` non-overlapping occurrences of `old` are replaced. -/
def Replace (s old new : Str) : Nat → Str
  | 0 => s
  | n + 1 =>
    match cutFirst old s with
    | none => s
    | some (b, a) => b ++ new ++ Replace a old new n

/-- Go `strings.Split(s, sep)` for a one-byte separator: the pieces of `s`
between the separators, empty pieces kept. -/
def Split : Str → Char → List Str
  | [], _ => [[]]
  | c :: cs, sep =>
    if c = sep then [] :: Split cs sep
    else match Split cs sep with
      | [] => [[c]]
      | h :: t => (c :: h) :: t

/-- Go `strings.Join(elems, sep)`. -/
def Join : List Str → Str → Str
  | [], _ => []
  | [e], _ => e
  | e :: es, sep => e ++ sep ++ Join es sep

end strings

namespace filepath

/-- One step of `filepath.Clean` on the path element `e`; `stack` holds
the elements kept so far, last one first. -/
def cleanStep (rooted : Bool) (stack : List Str) (e : Str) : List Str :=
  if e = [] ∨ e = ['.'] then stack
  else if e = ['.', '.'] then
    match stack with
    | [] => if rooted then [] else [e]
    | top :: rest =>
      if top = ['.', '.'] then (if rooted then stack else e :: stack) else rest
  else e :: stack

/-- Go `filepath.Clean` on Unix, element by element: empty and `.`
elements are dropped, `..` removes the element before it (a leading `..`
stays in a relative path and is dropped in a rooted one), and the empty
result is `.`. -/
def Clean (path : Str) : Str :=
  if path = [] then ['.']
  else
    let rooted := path.head? = some '/'
    let kept := ((strings.Split path '/').foldl (cleanStep rooted) []).reverse
    let body := strings.Join kept ['/']
    if rooted then '/' :: body
    else if body = [] then ['.'] else body

/-- Go `filepath.Base`: the last element of the path, trailing slashes
removed first; `.` for the empty path and `/` for a path of slashes. -/
def Base (path : Str) : Str :=
  if path = [] then ['.']
  else
    let p := (path.reverse.dropWhile (fun c => c == '/'))
    let b := (p.takeWhile (fun c => c != '/')).reverse
    if b = [] then ['/'] else b

/-- Go `filepath.Dir`: `Clean` of the path up to and including its last
slash. -/
def Dir (path : Str) : Str :=
  Clean (path.reverse.dropWhile (fun c => c != '/')).reverse

/-- Go `filepath.Join`: the elements from the first non-empty one on,
joined by slashes and cleaned; the empty string when all are empty. -/
def Join : List Str → Str
  | [] => []
  | e :: es => if e = [] then Join es else Clean (strings.Join (e :: es) ['/'])

end filepath

/-! ## Data of the driver -/

/-- An `*os.File`, named by its descriptor. -/
abbrev File := Nat

/-- Go `os.Stdin`. -/
def Stdin : File := 0

/-- Go `os.Stdout`. -/
def Stdout : File := 1

/-- The constant `version` (line 22). -/
def version : Str := "v0.4.0".toList

/-- The package-level variables of `main.go` (lines 24-31) with the
defaults `init` registers (lines 33-53); `flag.Parse` fills them. `Input`
and `MainFile` are bound to no flag. -/
structure Flags where
  Font : Str := ".".toList
  Dir : Str := []
  Gen : Str := ".".toList
  Input : Str := []
  Includes : Str := []
  MainFile : Str := []
  Style : Str := "nested".toList
  Comments : Bool := true
  cpuprofile : Str := []
  Help : Bool := false
  ShowVersion : Bool := false
  BuildDir : Str := []
deriving DecidableEq, Repr

/-- One of the two image caches `main` makes at lines 126-129 and shares
between all contexts of a run. -/
inductive Cache where
  | SpriteCache
  | ImageCache
deriving DecidableEq, Repr

/-- The fields of `context.Context` that `main` sets (lines 155-168); the
zero value is `context.Context{}`. -/
structure Context where
  Sprites : Option Cache := none
  Imgs : Option Cache := none
  OutputStyle : Nat := 0
  ImageDir : Str := []
  FontDir : Str := []
  BuildDir : Str := []
  GenImgDir : Str := []
  MainFile : Str := []
  Comments : Bool := false
  IncludePaths : List Str := []
deriving DecidableEq, Repr

/-- The fields of `sprite.Parser` that `startParser` sets (lines 212-217). -/
structure Parser where
  ImageDir : Str
  Includes : List Str
  BuildDir : Str
  MainFile : Str
deriving DecidableEq, Repr

/-- What the driver does to the outside, in the order it does it. A Go
call that returns `(value, error)` records both. -/
inductive Event where
  /-- `fmt.Println(s)`. -/
  | print (s : Str)
  /-- `flag.PrintDefaults()`. -/
  | printDefaults
  /-- `log.Print`, `log.Println`, `log.Printf`, and the message of
  `log.Fatal` and `log.Fatalf`. -/
  | log (msg : Str)
  /-- `pprof.StartCPUProfile(f)`. -/
  | startCPUProfile (f : File)
  /-- `pprof.StopCPUProfile()`. -/
  | stopCPUProfile
  /-- `os.MkdirAll(dir, 0755)`. -/
  | mkdirAll (dir : Str) (err : Option Str)
  /-- `os.Open(f)`. -/
  | opened (f : Str) (h : File) (err : Option Str)
  /-- `os.Create(path)`. -/
  | created (path : Str) (h : File) (err : Option Str)
  /-- `f.Close()`. -/
  | closed (h : File) (err : Option Str)
  /-- `parser.Start(in, pkgdir)`. -/
  | started (p : Parser) (inp : File) (pkgdir : Str) (bs : Bytes) (err : Option Str)
  /-- `ctx.Compile(&pout, out)`; `buf` is what `pout` holds at the call. -/
  | compiled (ctx : Context) (buf : Bytes) (out : Option File) (err : Option Str)
  /-- `ctx.ErrorLine()`. -/
  | errorLine (ctx : Context) (n : Int)
  /-- `par.LookupFile(n)`. -/
  | lookedUp (p : Parser) (n : Int) (fs : Str)
deriving DecidableEq, Repr

/-- How the process ends: `main` returns, or `os.Exit(code)` (also through
`log.Fatal`, code 1). -/
inductive Exit where
  | returned
  | exited (code : Nat)
deriving DecidableEq, Repr

/-- A call registered by `defer`. -/
inductive Deferred where
  /-- `defer fRead.Close()` (line 174), `defer out.Close()` (line 186). -/
  | close (h : File)
  /-- The deferred function of lines 71-78. -/
  | stopProfile (h : File)
deriving DecidableEq, Repr

/-- The collaborators of the driver over a state `σ` they may read and
change: the operating system, the path library's `Rel`, the style table of
package `context`, the preprocessor and the compiler. -/
structure World (σ : Type) where
  /-- `os.Create`. -/
  Create : σ → Str → σ × File × Option Str
  /-- `os.MkdirAll`. -/
  MkdirAll : σ → Str → σ × Option Str
  /-- `os.Open`. -/
  Open : σ → Str → σ × File × Option Str
  /-- `(*os.File).Close`. -/
  Close : σ → File → σ × Option Str
  /-- `pprof.StartCPUProfile`. -/
  StartCPUProfile : σ → File → σ
  /-- `pprof.StopCPUProfile`. -/
  StopCPUProfile : σ → σ
  /-- The first result of `filepath.Rel(basepath, targpath)`. -/
  Rel : Str → Str → Str
  /-- The map `context.Style`. -/
  Style : Str → Option Nat
  /-- The constant `context.NESTED_STYLE`. -/
  NESTED_STYLE : Nat
  /-- `(*sprite.Parser).Start(in, pkgdir)`: the bytes and the error. -/
  Start : σ → Parser → File → Str → σ × Bytes × Option Str
  /-- `(*sprite.Parser).LookupFile(n)`. -/
  LookupFile : σ → Parser → Int → Str
  /-- `(*context.Context).Compile(in, out)` on the bytes `in` holds. -/
  Compile : σ → Context → Bytes → Option File → σ × Option Str
  /-- `(*context.Context).ErrorLine()`. -/
  ErrorLine : σ → Context → Int

/-! ## `startParser` (lines 210-225) -/

/-- The results of `startParser`: the parser and the error it returns, the
`Write` calls its writer has received, the events and the new state. -/
structure Started (σ : Type) where
  parser : Parser
  err : Option Str
  out : List Bytes
  events : List Event
  state : σ

/-- The parser `startParser` builds from the context (lines 212-217). -/
def parserOf (ctx : Context) : Parser :=
  { ImageDir := ctx.ImageDir
    Includes := ctx.IncludePaths
    BuildDir := ctx.BuildDir
    MainFile := ctx.MainFile }

/-- Go `startParser(ctx, in, out, pkgdir)`. The writer `out` is the list of
the `Write` calls it has received so far. -/
def startParser {σ : Type} (w : World σ) (s : σ) (ctx : Context) (inp : File)
    (out : List Bytes) (pkgdir : Str) : Started σ :=
  let parser := parserOf ctx
  let r := w.Start s parser inp pkgdir
  let bs := r.2.1
  let err := r.2.2
  match err with
  | some e => ⟨parser, some e, out, [.started parser inp pkgdir bs (some e)], r.1⟩
  | none => ⟨parser, none, out ++ [bs], [.started parser inp pkgdir bs none], r.1⟩

/-! ## The loop over the input files (lines 131-207) -/

/-- One pass of the loop body: its events, the calls it deferred (latest
first), the flag variables and state it leaves, and whether it ended in
`log.Fatal`. -/
structure Step (σ : Type) where
  events : List Event
  defers : List Deferred
  flags : Flags
  state : σ
  fatal : Bool

/-- Lines 138-141: with no image directory, `Dir` becomes the directory of
the input file. -/
def setDir (g : Flags) (f : Str) : Flags :=
  if g.Dir = [] then { g with Dir := filepath.Dir f } else g

/-- Line 149: the name of the output file. -/
def outName (f : Str) : Str :=
  strings.Replace (filepath.Base f) ".scss".toList ".css".toList 1

/-- Lines 146-153: the path of the output file, empty without a build
directory. -/
def foutOf {σ : Type} (w : World σ) (g : Flags) (f : Str) : Str :=
  if g.BuildDir ≠ [] then
    filepath.Join [g.BuildDir, w.Rel g.Includes (filepath.Dir f), outName f]
  else []

/-- Lines 142-153: the writer before the output file is created. -/
def out0 (g : Flags) : Option File :=
  if g.BuildDir ≠ [] then none else some Stdout

/-- Lines 155-172: the context of the input file `f`. -/
def ctxOf (style : Nat) (g : Flags) (f fout : Str) : Context :=
  let ctx : Context :=
    { Sprites := some .SpriteCache
      Imgs := some .ImageCache
      OutputStyle := style
      ImageDir := g.Dir
      FontDir := g.Font
      BuildDir := filepath.Dir fout
      GenImgDir := g.Gen
      MainFile := f
      Comments := g.Comments
      IncludePaths := [filepath.Dir f] }
  if g.Includes ≠ [] then
    { ctx with IncludePaths := ctx.IncludePaths ++ strings.Split g.Includes ',' }
  else ctx

/-- Lines 193-206: parse into a fresh buffer, then compile it. -/
def parseCompile {σ : Type} (w : World σ) (g : Flags) (s : σ) (ctx : Context)
    (fRead : File) (out : Option File) : List Event × σ :=
  let pout : List Bytes := []
  let r := startParser w s ctx fRead pout (filepath.Dir g.Input)
  match r.err with
  | some e => (r.events ++ [.log e], r.state)
  | none =>
    let buf := r.out.flatten
    let c := w.Compile r.state ctx buf out
    match c.2 with
    | none => (r.events ++ [.compiled ctx buf out none], c.1)
    | some e =>
      let n := w.ErrorLine c.1 ctx
      let fs := w.LookupFile c.1 r.parser n
      (r.events ++ [.compiled ctx buf out (some e), .errorLine ctx n,
        .lookedUp r.parser n fs,
        .log ("Error encountered in: ".toList ++ fs), .log e], c.1)

/-- Lines 136-206: the loop body for an input file that is not a partial. -/
def fileBody {σ : Type} (w : World σ) (style : Nat) (g0 : Flags) (s : σ) (f : Str) :
    Step σ :=
  let g := setDir g0 f
  let fout := foutOf w g f
  let ctx := ctxOf style g f fout
  let o := w.Open s f
  let fRead := o.2.1
  let ev1 : List Event := [.opened f fRead o.2.2]
  let d1 : List Deferred := [.close fRead]
  match o.2.2 with
  | some e => ⟨ev1 ++ [.log e], d1, g, o.1, true⟩
  | none =>
    if fout ≠ [] then
      let dir := filepath.Dir fout
      let m := w.MkdirAll o.1 dir
      match m.2 with
      | some _ =>
        ⟨ev1 ++ [.mkdirAll dir m.2, .log ("Failed to create directory: ".toList ++ dir)],
          d1, g, m.1, true⟩
      | none =>
        let c := w.Create m.1 fout
        let ev2 := ev1 ++ [.mkdirAll dir none, .created fout c.2.1 c.2.2]
        let d2 := Deferred.close c.2.1 :: d1
        match c.2.2 with
        | some _ => ⟨ev2 ++ [.log ("Failed to create file: ".toList ++ f)], d2, g, c.1, true⟩
        | none =>
          let p := parseCompile w g c.1 ctx fRead (some c.2.1)
          ⟨ev2 ++ p.1, d2, g, p.2, false⟩
    else
      let p := parseCompile w g o.1 ctx fRead (out0 g)
      ⟨ev1 ++ p.1, d1, g, p.2, false⟩

/-- Line 133: a partial is a path whose base name begins with `_`. -/
def isPartial (f : Str) : Bool :=
  strings.HasPrefix (filepath.Base f) "_".toList

/-- Lines 131-207: the loop over `flag.Args()`. -/
def fileLoop {σ : Type} (w : World σ) (style : Nat) :
    Flags → σ → List Str → Step σ
  | g, s, [] => ⟨[], [], g, s, false⟩
  | g, s, f :: fs =>
    if isPartial f then fileLoop w style g s fs
    else
      let b := fileBody w style g s f
      if b.fatal then b
      else
        let r := fileLoop w style b.flags b.state fs
        ⟨b.events ++ r.events, r.defers ++ b.defers, r.flags, r.state, r.fatal⟩

/-! ## `main` (lines 55-208) -/

/-- The result of a run: the events, the state left and how it ended. -/
structure Run (σ : Type) where
  events : List Event
  state : σ
  exit : Exit

/-- The deferred calls run when `main` returns, latest first. -/
def runDefers {σ : Type} (w : World σ) : σ → List Deferred → Run σ
  | s, [] => ⟨[], s, .returned⟩
  | s, .close h :: ds =>
    let c := w.Close s h
    let r := runDefers w c.1 ds
    ⟨.closed h c.2 :: r.events, r.state, r.exit⟩
  | s, .stopProfile h :: ds =>
    let s1 := w.StopCPUProfile s
    let c := w.Close s1 h
    match c.2 with
    | some e => ⟨[.stopCPUProfile, .closed h (some e), .log e], c.1, .exited 1⟩
    | none =>
      let r := runDefers w c.1 ds
      ⟨[.stopCPUProfile, .closed h none, .log "Stopping Profiller".toList] ++ r.events,
        r.state, r.exit⟩

/-- Lines 107-124: with no arguments, parse and compile standard input. -/
def stdinMode {σ : Type} (w : World σ) (s : σ) : List Event × σ :=
  let out := Stdout
  let inp := Stdin
  let pout : List Bytes := []
  let ctx : Context := {}
  let r := startParser w s ctx inp pout []
  let ev1 : List Event :=
    match r.err with
    | some e => r.events ++ [.log e]
    | none => r.events
  let buf := r.out.flatten
  let c := w.Compile r.state ctx buf (some out)
  match c.2 with
  | some e => (.log "Reading from stdin, -h for help".toList :: ev1 ++
      [.compiled ctx buf (some out) (some e), .log e], c.1)
  | none => (.log "Reading from stdin, -h for help".toList :: ev1 ++
      [.compiled ctx buf (some out) none], c.1)

/-- Lines 101-105: the output style named by `-style`, the nested style
when the name is not in the table. -/
def styleOf {σ : Type} (w : World σ) (g : Flags) : Nat :=
  match w.Style g.Style with
  | some st => st
  | none => w.NESTED_STYLE

/-- Lines 101-207: the style, standard-input mode and the loop, then the
deferred calls `ds` and those of the loop when `main` returns. -/
def compileAll {σ : Type} (w : World σ) (s : σ) (g : Flags) (args : List Str)
    (ds : List Deferred) : Run σ :=
  let style := styleOf w g
  let i := if args.length = 0 then stdinMode w s else ([], s)
  let l := fileLoop w style g i.2 args
  if l.fatal then ⟨i.1 ++ l.events, l.state, .exited 1⟩
  else
    let d := runDefers w l.state (l.defers ++ ds)
    ⟨i.1 ++ l.events ++ d.events, d.state, d.exit⟩

/-- Lines 87-207: `-h`, the directory for generated images, then the
compilation. -/
def afterCheck {σ : Type} (w : World σ) (s : σ) (g : Flags) (args : List Str)
    (ds : List Deferred) : Run σ :=
  if g.Help then
    let d := runDefers w s ds
    ⟨[.print "Please specify input filepath.".toList,
      .print "\nAvailable options:".toList, .printDefaults] ++ d.events, d.state, d.exit⟩
  else if g.Gen ≠ [] then
    let m := w.MkdirAll s g.Gen
    match m.2 with
    | some e => ⟨[.mkdirAll g.Gen (some e), .log e], m.1, .exited 1⟩
    | none =>
      let r := compileAll w m.1 g args ds
      ⟨.mkdirAll g.Gen none :: r.events, r.state, r.exit⟩
  else compileAll w s g args ds

/-- The message of line 83 for the argument `v`. -/
def flagsFirst (v : Str) : Str :=
  "Please specify flags before other arguments: ".toList ++ v

/-- Lines 81-207: the check of the positional arguments (lines 81-85),
then the rest of `main`. -/
def checked {σ : Type} (w : World σ) (s : σ) (g : Flags) (args : List Str)
    (ds : List Deferred) : Run σ :=
  match args.find? (fun v => strings.HasPrefix v "-".toList) with
  | some v => ⟨[.log (flagsFirst v)], s, .exited 1⟩
  | none => afterCheck w s g args ds

/-- Go `main`, after `flag.Parse()` has set the flag variables `g` and left
the positional arguments `args` (`flag.Args()`). -/
def main {σ : Type} (w : World σ) (s : σ) (g : Flags) (args : List Str) : Run σ :=
  if g.ShowVersion then ⟨[.print version], s, .exited 0⟩
  else if g.cpuprofile ≠ [] then
    let c := w.Create s g.cpuprofile
    match c.2.2 with
    | some e => ⟨[.created g.cpuprofile c.2.1 (some e), .log e], c.1, .exited 1⟩
    | none =>
      let s1 := w.StartCPUProfile c.1 c.2.1
      let r := checked w s1 g args [.stopProfile c.2.1]
      ⟨[.created g.cpuprofile c.2.1 none, .log "Starting profiler".toList,
        .startCPUProfile c.2.1] ++ r.events, r.state, r.exit⟩
  else checked w s g args []

/-! ## A small world for concrete runs -/

/-- A world whose state counts the files opened and created so far. The
paths in `missing` cannot be opened; the parser fails on the main files in
`badParse` (leaving two bytes of partial output) and returns three bytes
otherwise; the compiler fails on an empty buffer with "No input provided"
and on the main files in `badCompile`, reporting line 1. -/
def sampleWorld (missing badParse badCompile : List Str) : World Nat where
  Create := fun s _ => (s + 1, s + 3, none)
  MkdirAll := fun s _ => (s, none)
  Open := fun s f =>
    if f ∈ missing then (s, 0, some "no such file".toList) else (s + 1, s + 3, none)
  Close := fun s _ => (s, none)
  StartCPUProfile := fun s _ => s
  StopCPUProfile := fun s => s
  Rel := fun _ _ => ".".toList
  Style := fun st => if st = "nested".toList then some 0 else none
  NESTED_STYLE := 0
  Start := fun s p _ _ =>
    if p.MainFile ∈ badParse then (s, [47, 42], some "parse error".toList)
    else (s, [100, 105, 118], none)
  LookupFile := fun _ p _ => p.MainFile
  Compile := fun s ctx buf _ =>
    if buf = [] then (s, some "No input provided".toList)
    else if ctx.MainFile ∈ badCompile then (s, some "syntax error".toList)
    else (s, none)
  ErrorLine := fun _ _ => 1

/-- The sample world on a disk where no file can be created. -/
def readOnlyWorld : World Nat :=
  { sampleWorld [] [] [] with
    Create := fun s _ => (s, 0, some "permission denied".toList) }

/-! ## Properties of traces -/

/-- A property `Q` holds at every position of a trace: for the events
before it, the event there, and the events after it. -/
def EachEvent (Q : List Event → Event → List Event → Prop) (t : List Event) : Prop :=
  ∀ pre x post, t = pre ++ x :: post → Q pre x post

/-- The parse-then-compile protocol at one position of a trace of the
world `w`. A `Compile` comes right after the `Start` of the parser made from
its context; its buffer is the bytes `w.Start` returned there, without
error, and its error is what `w.Compile` returns on them in the state
`Start` left. When it fails, it is followed by `ErrorLine` on the same
context with the line `w.ErrorLine` reports in the state `Compile` left, by
`LookupFile` of that line on the same parser with the location
`w.LookupFile` gives, then by the log of that location and of the error. A
`LookupFile` comes only right after a failed `Compile` and its `ErrorLine`,
with that line and that location. A `Start` without error is followed at
once by the `Compile` of its bytes. -/
def parseThenCompile {σ : Type} (w : World σ) (pre : List Event) (x : Event)
    (post : List Event) : Prop :=
  match x with
  | .compiled ctx buf out err =>
    ∃ pre1 inp pkg s1,
      pre = pre1 ++ [.started (parserOf ctx) inp pkg buf none] ∧
      (w.Start s1 (parserOf ctx) inp pkg).2.1 = buf ∧
      (w.Start s1 (parserOf ctx) inp pkg).2.2 = none ∧
      (w.Compile (w.Start s1 (parserOf ctx) inp pkg).1 ctx buf out).2 = err ∧
      (∀ e, err = some e → ∃ post1,
        post =
          .errorLine ctx
            (w.ErrorLine (w.Compile (w.Start s1 (parserOf ctx) inp pkg).1 ctx buf out).1 ctx) ::
          .lookedUp (parserOf ctx)
            (w.ErrorLine (w.Compile (w.Start s1 (parserOf ctx) inp pkg).1 ctx buf out).1 ctx)
            (w.LookupFile (w.Compile (w.Start s1 (parserOf ctx) inp pkg).1 ctx buf out).1
              (parserOf ctx)
              (w.ErrorLine (w.Compile (w.Start s1 (parserOf ctx) inp pkg).1 ctx buf out).1
                ctx)) ::
          .log ("Error encountered in: ".toList ++
            w.LookupFile (w.Compile (w.Start s1 (parserOf ctx) inp pkg).1 ctx buf out).1
              (parserOf ctx)
              (w.ErrorLine (w.Compile (w.Start s1 (parserOf ctx) inp pkg).1 ctx buf out).1
                ctx)) ::
          .log e :: post1)
  | .lookedUp p n fs =>
    ∃ pre1 ctx buf out e inp pkg s1,
      pre = pre1 ++ [.compiled ctx buf out (some e), .errorLine ctx n] ∧
      p = parserOf ctx ∧
      (w.Start s1 p inp pkg).2.1 = buf ∧
      (w.Compile (w.Start s1 p inp pkg).1 ctx buf out).2 = some e ∧
      n = w.ErrorLine (w.Compile (w.Start s1 p inp pkg).1 ctx buf out).1 ctx ∧
      fs = w.LookupFile (w.Compile (w.Start s1 p inp pkg).1 ctx buf out).1 p n
  | .started p _ _ bs none =>
    ∃ ctx out err post1, post = .compiled ctx bs out err :: post1 ∧ p = parserOf ctx
  | _ => True

/-- An event of the preamble of `main` or of a deferred call: it is not an
`Open`, a `Start`, a `Compile`, an `ErrorLine` or a `LookupFile`. -/
def Event.quiet : Event → Bool
  | .opened _ _ _ => false
  | .started _ _ _ _ _ => false
  | .compiled _ _ _ _ => false
  | .errorLine _ _ => false
  | .lookedUp _ _ _ => false
  | _ => true

/-- What a `Start` event of a run on the arguments `args` with `-p inc`
shows: the parser is that of a non-partial argument and its include paths
are the directory of that file, then the pieces of `inc`. -/
def handsIncludes (inc : Str) (args : List Str) (x : Event) : Prop :=
  match x with
  | .started p _ _ _ _ =>
    p.MainFile ∈ args ∧ isPartial p.MainFile = false ∧
    p.Includes = filepath.Dir p.MainFile ::
      (if inc = [] then [] else strings.Split inc ',')
  | _ => True

/-- The paths of the `Open` calls of a trace, in order. -/
def opens : List Event → List Str
  | [] => []
  | .opened f _ _ :: t => f :: opens t
  | _ :: t => opens t

/-- The main files of the parsers started in a trace, in order. -/
def starts : List Event → List Str
  | [] => []
  | .started p _ _ _ _ :: t => p.MainFile :: starts t
  | _ :: t => starts t

/-- An `Open`, `MkdirAll` or `Create` that returned an error. -/
def Event.failed : Event → Bool
  | .opened _ _ (some _) => true
  | .mkdirAll _ (some _) => true
  | .created _ _ (some _) => true
  | _ => false

/-- The arguments that are not partials, in command-line order. -/
def nonPartials (args : List Str) : List Str :=
  args.filter (fun f => !isPartial f)

/-- What holds of the trace and exit of a run that gets to the loop over
`args`. With no failed `Open`, `MkdirAll` or `Create`, every non-partial
argument is opened, and parsed when there are arguments, in command-line
order. With one, the trace ends with the first failed call and the message
of `log.Fatal`, and the exit code is 1. -/
def StopsOnlyAtFailedCall (args : List Str) (events : List Event) (exit : Exit) : Prop :=
  ((∀ x ∈ events, x.failed = false) →
    opens events = nonPartials args ∧ (args ≠ [] → starts events = nonPartials args)) ∧
  ((∃ x ∈ events, x.failed = true) →
    ∃ pre x m, events = pre ++ [x, .log m] ∧ x.failed = true ∧
      (∀ y ∈ pre, y.failed = false) ∧ exit = .exited 1)

/-- The trace of `main` is quiet events, then the events of
standard-input mode (no arguments) or of the loop (some arguments) or
nothing, then quiet events. -/
def Decomposes {σ : Type} (w : World σ) (g : Flags) (args : List Str)
    (events : List Event) : Prop :=
  ∃ pre mid post, events = pre ++ mid ++ post ∧
    (∀ x ∈ pre, x.quiet = true) ∧ (∀ x ∈ post, x.quiet = true) ∧
    (mid = [] ∨ (args = [] ∧ ∃ s1, mid = (stdinMode w s1).1) ∨
      (args ≠ [] ∧ ∃ s1, mid = (fileLoop w (styleOf w g) g s1 args).events))

/-! ## The preprocessor, modelled from the spec (§3, §4) -/

namespace Spec

/-- Modelled from the spec: the kinds of `FileError` of the Source Loader
(§4.1, §7). -/
inductive FileErrorKind where
  | NotFound
  | NotPermitted
  | ReadFailure
deriving DecidableEq, Repr

/-- Modelled from the spec: the error taxonomy of §7; the preprocessor
itself (`sprite.Parser`) is not among the sources. The first error met ends
the compilation. -/
inductive ParseError where
  | FileError (kind : FileErrorKind) (path : Str)
  | ImportNotFound (target : Str)
  | ImportCyclic (path : Str) (stack : List Str)
  | SpriteError (image : Str)
  | MalformedDirective (file : Str) (line : Nat)
  | TooDeep
deriving DecidableEq, Repr

/-- Modelled from the spec: a directive of §3, with the line of its owning
file where its span starts. An import line with several targets gives one
`Import` per target, left to right (§4.2). -/
inductive Directive where
  | Import (line : Nat) (target : Str)
  | SpriteRule (line : Nat) (name : Str) (args : List Str)
  | CustomFunctionCall (line : Nat) (text : List Str)
  | PlainRun (line : Nat) (text : List Str)
deriving DecidableEq, Repr

/-- Modelled from the spec: a `LineMapEntry` of §3, the source file and
source line of one output line. -/
structure Entry where
  file : Str
  line : Nat
deriving DecidableEq, Repr

/-- Modelled from the spec: the state of the Line-Map Assembler (§4.5),
the output buffer as its lines and one entry for each of them. -/
structure Assembled where
  buffer : List Str
  map : List Entry
deriving DecidableEq, Repr

/-- Modelled from the spec: the files on disk, by path; `none` is a file
that cannot be read. -/
abbrev Files := List (Str × Option Str)

/-- Modelled from the spec: the configuration of §6 and the two
collaborators the scanner and the expander rely on: the ordered include
paths, the recogniser of the sprite calls and of the registered custom
calls on a line, and the sprite expander (§4.4), which returns the
rewritten lines or the name of the image it failed on. -/
structure Config where
  includePaths : List Str
  sprite : Str → Option (Str × List Str)
  custom : Str → Bool
  expand : Str → List Str → Except Str (List Str)

/-- Modelled from the spec: the fixed default extension and the prefix of
a partial file (§6, glossary). -/
def defaultExt : Str := ".scss".toList

/-- Modelled from the spec: the lines of a text, for `countLines` (§4.5). A
newline at the end of the text closes the last line. -/
def lines (text : Str) : List Str :=
  let ls := strings.Split text '\n'
  if ls.getLast? = some [] then ls.dropLast else ls

/-- Modelled from the spec: the scanner's view of a line or of a piece of
it, blanks removed at both ends (§4.2). -/
def trim (s : Str) : Str :=
  ((s.dropWhile (fun c => c == ' ' || c == '\t')).reverse.dropWhile
    (fun c => c == ' ' || c == '\t')).reverse

/-- Modelled from the spec: the `<target>` of `"<target>"` (§4.2), when `s`
is a target between double quotes. -/
def quoted (s : Str) : Option Str :=
  match s with
  | '"' :: rest =>
    if rest.getLast? = some '"' ∧ '"' ∉ rest.dropLast ∧ rest.dropLast ≠ []
    then some rest.dropLast else none
  | _ => none

/-- Modelled from the spec: the targets of a `,`-separated list, left to
right (§4.2), when every piece is a quoted target. -/
def allQuoted : List Str → Option (List Str)
  | [] => some []
  | p :: ps =>
    match quoted (trim p), allQuoted ps with
    | some t, some ts => some (t :: ts)
    | _, _ => none

/-- Modelled from the spec: the import directive of §4.2 on one line,
`@import "<target>"` with `,`-separated targets and a closing `;`. `none`
when the line is no import, `some none` when it is a malformed one. -/
def importTargets (line : Str) : Option (Option (List Str)) :=
  let l := trim line
  if "@import".toList.isPrefixOf l then
    let rest := trim (l.drop 7)
    if rest.getLast? = some ';' then
      some (allQuoted (strings.Split (trim rest.dropLast) ','))
    else some none
  else none

/-- Modelled from the spec: a plain line joins the `PlainRun` that starts
the directives after it, so that runs are maximal (§4.2 (d)). -/
def plainCons (n : Nat) (line : Str) : List Directive → List Directive
  | .PlainRun m text :: ds => if m = n + 1 then .PlainRun n (line :: text) :: ds
      else .PlainRun n [line] :: .PlainRun m text :: ds
  | ds => .PlainRun n [line] :: ds

/-- Modelled from the spec: the Directive Scanner of §4.2 over the lines of
one file, the first of them being line `n`: imports first, then sprite
calls, then registered custom calls, the rest plain text. -/
def scan (cfg : Config) (file : Str) : Nat → List Str → Except ParseError (List Directive)
  | _, [] => .ok []
  | n, line :: rest =>
    match scan cfg file (n + 1) rest with
    | .error e => .error e
    | .ok ds =>
      match importTargets line with
      | some none => .error (.MalformedDirective file n)
      | some (some ts) => .ok (ts.map (Directive.Import n) ++ ds)
      | none =>
        match cfg.sprite line with
        | some (name, args) => .ok (.SpriteRule n name args :: ds)
        | none =>
          if cfg.custom line then .ok (.CustomFunctionCall n [line] :: ds)
          else .ok (plainCons n line ds)

/-- Modelled from the spec: the names tried for a target in one directory
(§4.3): the exact name, the partial (base name prefixed with `_`), then
both with the default extension when it is missing. -/
def candidates (target : Str) : List Str :=
  let part := filepath.Join [filepath.Dir target, '_' :: filepath.Base target]
  let ext := fun (n : Str) => if strings.HasSuffix n defaultExt then n else n ++ defaultExt
  [target, part, ext target, ext part]

/-- Modelled from the spec: "first match wins" (§4.3): the first path of
the list that is a file. -/
def firstFile (fs : Files) : List Str → Option Str
  | [] => none
  | p :: ps => if (fs.lookup p).isSome then some p else firstFile fs ps

/-- Modelled from the spec: the Import Resolver of §4.3. The directory of
the importing file comes first, then the include paths in order; in each
directory the candidates in order; the first match wins. -/
def resolve (fs : Files) (target currentDir : Str) (includePaths : List Str) :
    Except ParseError Str :=
  match firstFile fs ((currentDir :: includePaths).flatMap
      (fun d => (candidates target).map (fun c => filepath.Join [d, c]))) with
  | some p => .ok p
  | none => .error (.ImportNotFound target)

/-- Modelled from the spec: a path that resolves within the directory
`dir` (§4.1): it lies in it or below it. -/
def within (dir path : Str) : Bool :=
  if filepath.Clean dir = ".".toList then
    !("/".toList.isPrefixOf path) && !("../".toList.isPrefixOf path) && path != "..".toList
  else (filepath.Clean dir ++ "/".toList).isPrefixOf path

/-- Modelled from the spec: the Source Loader of §4.1. The root file is
always permitted, another path only inside one of the search directories. -/
def load (fs : Files) (root : Str) (dirs : List Str) (path : Str) : Except ParseError Str :=
  if path = root ∨ dirs.any (fun d => within d path) then
    match fs.lookup path with
    | none => .error (.FileError .NotFound path)
    | some none => .error (.FileError .ReadFailure path)
    | some (some text) => .ok text
  else .error (.FileError .NotPermitted path)

/-- Modelled from the spec: `append(text, fileID, startLine)` of §4.5: one
entry per line of the text, line `i` mapped to `(fileID, startLine + i)`. -/
def Assembled.append (a : Assembled) (text : List Str) (file : Str) (startLine : Nat) :
    Assembled :=
  { buffer := a.buffer ++ text
    map := a.map ++ (List.range text.length).map (fun i => ⟨file, startLine + i⟩) }

/-- Modelled from the spec: the rewritten output of a directive, all of it
attributed to the first line of the directive (§4.2, §4.4). -/
def Assembled.appendAt (a : Assembled) (text : List Str) (file : Str) (line : Nat) :
    Assembled :=
  { buffer := a.buffer ++ text
    map := a.map ++ text.map (fun _ => ⟨file, line⟩) }

/-- Modelled from the spec: the splice of an import (§4.5): the child's
buffer and map, assembled first, are appended as one unit and the child's
entries are kept as they are. -/
def Assembled.splice (a child : Assembled) : Assembled :=
  { buffer := a.buffer ++ child.buffer, map := a.map ++ child.map }

/-- Modelled from the spec: `lookup(outputLine)` of §4.5, 1-based; `none`
is `OutOfRange`. -/
def lookup (a : Assembled) (outputLine : Nat) : Option Entry :=
  if outputLine = 0 then none else a.map[outputLine - 1]?

/-- Modelled from the spec: the loop of the Parser (§4.6) over the
directives of the file `file`; `recur` parses an imported file. `stack` is
the `ImportStack`, the files being resolved, `file` among them. -/
def assemble (cfg : Config) (fs : Files) (recur : Str → Except ParseError Assembled)
    (stack : List Str) (file : Str) :
    List Directive → Assembled → Except ParseError Assembled
  | [], acc => .ok acc
  | .Import _ target :: ds, acc =>
    match resolve fs target (filepath.Dir file) cfg.includePaths with
    | .error e => .error e
    | .ok p =>
      if p ∈ stack then .error (.ImportCyclic p stack)
      else match recur p with
        | .error e => .error e
        | .ok child => assemble cfg fs recur stack file ds (acc.splice child)
  | .SpriteRule n name args :: ds, acc =>
    match cfg.expand name args with
    | .error image => .error (.SpriteError image)
    | .ok text => assemble cfg fs recur stack file ds (acc.appendAt text file n)
  | .CustomFunctionCall n text :: ds, acc =>
    assemble cfg fs recur stack file ds (acc.appendAt text file n)
  | .PlainRun n text :: ds, acc =>
    assemble cfg fs recur stack file ds (acc.append text file n)

/-- Modelled from the spec: the scan-resolve-expand-assemble loop of §2 and
§4.6 over the lines `ls` of the file `file`, the first of them being line
`n`: the lines are scanned and the directives assembled from an empty
buffer. -/
def parseLines (cfg : Config) (fs : Files) (recur : Str → Except ParseError Assembled)
    (stack : List Str) (file : Str) (n : Nat) (ls : List Str) :
    Except ParseError Assembled :=
  match scan cfg file n ls with
  | .error e => .error e
  | .ok ds => assemble cfg fs recur stack file ds ⟨[], []⟩

/-- Modelled from the spec: the file that imports `path` (§3, "parent
import"): the top of the stack of files being resolved, `path` itself for
the root file. -/
def importer (stack : List Str) (path : Str) : Str :=
  match stack with
  | [] => path
  | p :: _ => p

/-- Modelled from the spec: one pass of the Parser over the file `path`
(§4.6, §9): load, then scan and assemble its lines, with ordinary recursion
for the imports. `depth` bounds the nesting of imports; the stack holds
distinct files, so the number of files is enough. -/
def parseFile (cfg : Config) (fs : Files) (root : Str) :
    Nat → List Str → Str → Except ParseError Assembled
  | 0, _, _ => .error .TooDeep
  | depth + 1, stack, path =>
    match load fs root (filepath.Dir (importer stack path) :: cfg.includePaths) path with
    | .error e => .error e
    | .ok text =>
      parseLines cfg fs (fun p => parseFile cfg fs root depth (path :: stack) p)
        (path :: stack) path 1 (lines text)

/-- Modelled from the spec: `Parser.Start` on the root file (§4.6): the
final buffer and line map, or the first error. The parser of package
`sprite_sass` is not among the sources, only its test `parser_test.go`. -/
def Start (cfg : Config) (fs : Files) (root : Str) : Except ParseError Assembled :=
  parseFile cfg fs root (fs.length + 1) [] root

/-- Modelled from the spec: `Parser.LookupFile(outputLine)` after `Done`
(§4.6), the lookup of the Line-Map Assembler; like `Start` it is not among
the sources. -/
def LookupFile (r : Except ParseError Assembled) (outputLine : Nat) : Option Entry :=
  match r with
  | .ok a => lookup a outputLine
  | .error _ => none

/-- Modelled from the spec: a configuration (§6) with no include path, no
sprite call and no registered custom call. -/
def plainConfig : Config :=
  { includePaths := [], sprite := fun _ => none, custom := fun _ => false,
    expand := fun _ _ => .ok [] }

/-- Modelled from the spec: a line the scanner takes for plain text
(§4.2 (d)): it holds no import directive, no sprite call and no registered
custom call. -/
def Config.plain (cfg : Config) (line : Str) : Bool :=
  (importTargets line).isNone && (cfg.sprite line).isNone && !cfg.custom line

/-- Modelled from the spec: the files of the scenario of §8, `a.scss` and
`b.scss` with their texts. -/
def twoFiles (ta tb : Str) : Files :=
  [("a.scss".toList, some ta), ("b.scss".toList, some tb)]

end Spec

/-- The main files of the contexts compiled in a trace, in order. -/
def compiles : List Event → List Str
  | [] => []
  | .compiled ctx _ _ _ :: t => ctx.MainFile :: compiles t
  | _ :: t => compiles t

/-- The main files of the parsers whose `Start` returned no error in a
trace, in order. -/
def parsedOk : List Event → List Str
  | [] => []
  | .started p _ _ _ none :: t => p.MainFile :: parsedOk t
  | _ :: t => parsedOk t

/-- A `Start` that returned an error. -/
def Event.parseFailed : Event → Bool
  | .started _ _ _ _ (some _) => true
  | _ => false

/-! # Theorems -/

/-! ## Traces -/

theorem eachEvent_nil (Q : List Event → Event → List Event → Prop) : EachEvent Q [] := by
  intro pre x post h
  cases pre <;> simp at h

theorem eachEvent_cons (Q : List Event → Event → List Event → Prop) (e : Event)
    (t : List Event) (h0 : Q [] e t)
    (ht : EachEvent (fun pre x post => Q (e :: pre) x post) t) : EachEvent Q (e :: t) := by
  intro pre x post h
  cases pre with
  | nil =>
    simp at h
    obtain ⟨rfl, rfl⟩ := h
    exact h0
  | cons a pre =>
    simp at h
    obtain ⟨rfl, h⟩ := h
    exact ht pre x post h

theorem split_append {α : Type} (t1 t2 pre post : List α) (x : α)
    (h : t1 ++ t2 = pre ++ x :: post) :
    (∃ post1, t1 = pre ++ x :: post1 ∧ post = post1 ++ t2) ∨
    (∃ pre2, t2 = pre2 ++ x :: post ∧ pre = t1 ++ pre2) := by
  induction t1 generalizing pre with
  | nil => exact Or.inr ⟨pre, by simpa using h, by simp⟩
  | cons a t1 ih =>
    cases pre with
    | nil =>
      simp at h
      obtain ⟨rfl, rfl⟩ := h
      exact Or.inl ⟨t1, by simp, rfl⟩
    | cons b pre =>
      simp at h
      obtain ⟨rfl, h⟩ := h
      rcases ih pre h with ⟨post1, h1, h2⟩ | ⟨pre2, h1, h2⟩
      · exact Or.inl ⟨post1, by simp [h1], h2⟩
      · exact Or.inr ⟨pre2, h1, by simp [h2]⟩

theorem eachEvent_append (Q : List Event → Event → List Event → Prop)
    (mono : ∀ a pre x post b, Q pre x post → Q (a ++ pre) x (post ++ b))
    (t1 t2 : List Event) (h1 : EachEvent Q t1) (h2 : EachEvent Q t2) :
    EachEvent Q (t1 ++ t2) := by
  intro pre x post h
  rcases split_append t1 t2 pre post x h with ⟨post1, e1, rfl⟩ | ⟨pre2, e2, rfl⟩
  · have := mono [] pre x post1 t2 (h1 pre x post1 e1)
    simpa using this
  · have := mono t1 pre2 x post [] (h2 pre2 x post e2)
    simpa using this

theorem eachEvent_of_forall (Q : List Event → Event → List Event → Prop) (t : List Event)
    (h : ∀ x ∈ t, ∀ pre post, Q pre x post) : EachEvent Q t := by
  intro pre x post e
  exact h x (by simp [e]) pre post

theorem parseThenCompile_mono {σ : Type} (w : World σ) (a pre : List Event) (x : Event)
    (post b : List Event) (h : parseThenCompile w pre x post) :
    parseThenCompile w (a ++ pre) x (post ++ b) := by
  cases x with
  | compiled ctx buf out err =>
    obtain ⟨pre1, inp, pkg, s1, h1, h2, h3, h4, h5⟩ := h
    refine ⟨a ++ pre1, inp, pkg, s1, by simp [h1], h2, h3, h4, ?_⟩
    intro e he
    obtain ⟨post1, h6⟩ := h5 e he
    exact ⟨post1 ++ b, by simp [h6]⟩
  | lookedUp p n fs =>
    obtain ⟨pre1, ctx, buf, out, e, inp, pkg, s1, h1, h2⟩ := h
    exact ⟨a ++ pre1, ctx, buf, out, e, inp, pkg, s1, by simp [h1], h2⟩
  | started p inp pkg bs err =>
    cases err with
    | some e => trivial
    | none =>
      obtain ⟨ctx, out, err, post1, h1, h2⟩ := h
      exact ⟨ctx, out, err, post1 ++ b, by simp [h1], h2⟩
  | _ => trivial

theorem parseThenCompile_of_quiet {σ : Type} (w : World σ) (x : Event)
    (h : x.quiet = true) (pre post : List Event) : parseThenCompile w pre x post := by
  cases x <;> trivial

theorem eachEvent_cons_iff (Q : List Event → Event → List Event → Prop) (e : Event)
    (t : List Event) :
    EachEvent Q (e :: t) ↔ Q [] e t ∧ EachEvent (fun pre x post => Q (e :: pre) x post) t := by
  constructor
  · intro h
    exact ⟨h [] e t rfl, fun pre x post hh => h (e :: pre) x post (by simp [hh])⟩
  · intro h
    exact eachEvent_cons Q e t h.1 h.2

theorem eachEvent_nil_iff (Q : List Event → Event → List Event → Prop) :
    EachEvent Q [] ↔ True :=
  ⟨fun _ => trivial, fun _ => eachEvent_nil Q⟩

/-- The three traces `parseCompile` can leave. -/
theorem parseCompile_shape {σ : Type} (w : World σ) (g : Flags) (s : σ) (ctx : Context)
    (fRead : File) (out : Option File) :
    (∃ bs e, (parseCompile w g s ctx fRead out).1 =
      [.started (parserOf ctx) fRead (filepath.Dir g.Input) bs (some e), .log e]) ∨
    (∃ bs, (parseCompile w g s ctx fRead out).1 =
      [.started (parserOf ctx) fRead (filepath.Dir g.Input) bs none,
        .compiled ctx bs out none]) ∨
    (∃ bs e n fs, (parseCompile w g s ctx fRead out).1 =
      [.started (parserOf ctx) fRead (filepath.Dir g.Input) bs none,
        .compiled ctx bs out (some e), .errorLine ctx n, .lookedUp (parserOf ctx) n fs,
        .log ("Error encountered in: ".toList ++ fs), .log e]) := by
  unfold parseCompile startParser
  cases h : (w.Start s (parserOf ctx) fRead (filepath.Dir g.Input)).2.2 with
  | some e =>
    simp only [h]
    exact Or.inl ⟨_, e, rfl⟩
  | none =>
    simp only [h, List.nil_append, List.flatten_cons, List.flatten_nil, List.append_nil]
    cases hc : (w.Compile (w.Start s (parserOf ctx) fRead (filepath.Dir g.Input)).1 ctx
        (w.Start s (parserOf ctx) fRead (filepath.Dir g.Input)).2.1 out).2 with
    | none => exact Or.inr (Or.inl ⟨_, rfl⟩)
    | some e => exact Or.inr (Or.inr ⟨_, e, _, _, rfl⟩)

/-- The trace of `parseCompile`, by what `Start` and `Compile` return. -/
theorem parseCompile_exact {σ : Type} (w : World σ) (g : Flags) (s : σ) (ctx : Context)
    (fRead : File) (out : Option File) :
    (∀ e, (w.Start s (parserOf ctx) fRead (filepath.Dir g.Input)).2.2 = some e →
      (parseCompile w g s ctx fRead out).1 =
        [.started (parserOf ctx) fRead (filepath.Dir g.Input)
          (w.Start s (parserOf ctx) fRead (filepath.Dir g.Input)).2.1 (some e), .log e]) ∧
    ((w.Start s (parserOf ctx) fRead (filepath.Dir g.Input)).2.2 = none →
      (w.Compile (w.Start s (parserOf ctx) fRead (filepath.Dir g.Input)).1 ctx
        (w.Start s (parserOf ctx) fRead (filepath.Dir g.Input)).2.1 out).2 = none →
      (parseCompile w g s ctx fRead out).1 =
        [.started (parserOf ctx) fRead (filepath.Dir g.Input)
          (w.Start s (parserOf ctx) fRead (filepath.Dir g.Input)).2.1 none,
         .compiled ctx (w.Start s (parserOf ctx) fRead (filepath.Dir g.Input)).2.1 out
          none]) ∧
    ((w.Start s (parserOf ctx) fRead (filepath.Dir g.Input)).2.2 = none →
      ∀ e, (w.Compile (w.Start s (parserOf ctx) fRead (filepath.Dir g.Input)).1 ctx
        (w.Start s (parserOf ctx) fRead (filepath.Dir g.Input)).2.1 out).2 = some e →
      (parseCompile w g s ctx fRead out).1 =
        [.started (parserOf ctx) fRead (filepath.Dir g.Input)
          (w.Start s (parserOf ctx) fRead (filepath.Dir g.Input)).2.1 none,
         .compiled ctx (w.Start s (parserOf ctx) fRead (filepath.Dir g.Input)).2.1 out
          (some e),
         .errorLine ctx
          (w.ErrorLine (w.Compile (w.Start s (parserOf ctx) fRead (filepath.Dir g.Input)).1
            ctx (w.Start s (parserOf ctx) fRead (filepath.Dir g.Input)).2.1 out).1 ctx),
         .lookedUp (parserOf ctx)
          (w.ErrorLine (w.Compile (w.Start s (parserOf ctx) fRead (filepath.Dir g.Input)).1
            ctx (w.Start s (parserOf ctx) fRead (filepath.Dir g.Input)).2.1 out).1 ctx)
          (w.LookupFile (w.Compile (w.Start s (parserOf ctx) fRead (filepath.Dir g.Input)).1
            ctx (w.Start s (parserOf ctx) fRead (filepath.Dir g.Input)).2.1 out).1
            (parserOf ctx)
            (w.ErrorLine (w.Compile (w.Start s (parserOf ctx) fRead
              (filepath.Dir g.Input)).1 ctx
              (w.Start s (parserOf ctx) fRead (filepath.Dir g.Input)).2.1 out).1 ctx)),
         .log ("Error encountered in: ".toList ++
          w.LookupFile (w.Compile (w.Start s (parserOf ctx) fRead (filepath.Dir g.Input)).1
            ctx (w.Start s (parserOf ctx) fRead (filepath.Dir g.Input)).2.1 out).1
            (parserOf ctx)
            (w.ErrorLine (w.Compile (w.Start s (parserOf ctx) fRead
              (filepath.Dir g.Input)).1 ctx
              (w.Start s (parserOf ctx) fRead (filepath.Dir g.Input)).2.1 out).1 ctx)),
         .log e]) := by
  refine ⟨?_, ?_, ?_⟩
  · intro e h
    simp [parseCompile, startParser, h]
  · intro h hc
    simp [parseCompile, startParser, h, hc]
  · intro h e hc
    simp [parseCompile, startParser, h, hc]

theorem parseCompile_protocol {σ : Type} (w : World σ) (g : Flags) (s : σ) (ctx : Context)
    (fRead : File) (out : Option File) :
    EachEvent (parseThenCompile w) (parseCompile w g s ctx fRead out).1 := by
  obtain ⟨x1, x2, x3⟩ := parseCompile_exact w g s ctx fRead out
  cases h : (w.Start s (parserOf ctx) fRead (filepath.Dir g.Input)).2.2 with
  | some e =>
    rw [x1 e h]
    simp only [eachEvent_cons_iff, eachEvent_nil_iff, and_true]
    exact ⟨trivial, trivial⟩
  | none =>
    cases hc : (w.Compile (w.Start s (parserOf ctx) fRead (filepath.Dir g.Input)).1 ctx
        (w.Start s (parserOf ctx) fRead (filepath.Dir g.Input)).2.1 out).2 with
    | none =>
      rw [x2 h hc]
      simp only [eachEvent_cons_iff, eachEvent_nil_iff, and_true]
      refine ⟨?_, ?_⟩
      · exact ⟨ctx, out, none, [], rfl, rfl⟩
      · exact ⟨[], fRead, _, s, rfl, rfl, h, hc, fun e he => by cases he⟩
    | some e =>
      rw [x3 h e hc]
      simp only [eachEvent_cons_iff, eachEvent_nil_iff, and_true]
      refine ⟨?_, ?_, ?_, ?_, ?_, ?_⟩
      · exact ⟨ctx, out, some e, _, rfl, rfl⟩
      · refine ⟨[], fRead, _, s, rfl, rfl, h, hc, ?_⟩
        intro e1 he1
        cases he1
        exact ⟨[], rfl⟩
      · trivial
      · exact ⟨[_], ctx, _, out, e, fRead, _, s, rfl, rfl, rfl, hc, rfl, rfl⟩
      · trivial
      · trivial

/-- The five ways one pass of the loop body can go. -/
theorem fileBody_shape {σ : Type} (w : World σ) (style : Nat) (g : Flags) (s : σ) (f : Str) :
    (fileBody w style g s f).flags = setDir g f ∧
    ((∃ h e, (fileBody w style g s f).events = [.opened f h (some e), .log e] ∧
        (fileBody w style g s f).fatal = true) ∨
     (∃ h e, (fileBody w style g s f).events =
        [.opened f h none, .mkdirAll (filepath.Dir (foutOf w (setDir g f) f)) (some e),
          .log ("Failed to create directory: ".toList ++
            filepath.Dir (foutOf w (setDir g f) f))] ∧
        (fileBody w style g s f).fatal = true) ∨
     (∃ h h1 e, (fileBody w style g s f).events =
        [.opened f h none, .mkdirAll (filepath.Dir (foutOf w (setDir g f) f)) none,
          .created (foutOf w (setDir g f) f) h1 (some e),
          .log ("Failed to create file: ".toList ++ f)] ∧
        (fileBody w style g s f).fatal = true) ∨
     (∃ h h1 s1, (fileBody w style g s f).events =
        [.opened f h none, .mkdirAll (filepath.Dir (foutOf w (setDir g f) f)) none,
          .created (foutOf w (setDir g f) f) h1 none] ++
          (parseCompile w (setDir g f) s1
            (ctxOf style (setDir g f) f (foutOf w (setDir g f) f)) h (some h1)).1 ∧
        (fileBody w style g s f).fatal = false) ∨
     (∃ h s1, (fileBody w style g s f).events =
        .opened f h none ::
          (parseCompile w (setDir g f) s1
            (ctxOf style (setDir g f) f (foutOf w (setDir g f) f)) h
            (out0 (setDir g f))).1 ∧
        foutOf w (setDir g f) f = [] ∧
        (fileBody w style g s f).fatal = false)) := by
  cases ho : (w.Open s f).2.2 with
  | some e => simp [fileBody, ho]
  | none =>
    by_cases hf : foutOf w (setDir g f) f = []
    · simp [fileBody, ho, hf]
      exact Or.inr ⟨_, rfl⟩
    · cases hm : (w.MkdirAll (w.Open s f).1 (filepath.Dir (foutOf w (setDir g f) f))).2 with
      | some e => simp [fileBody, ho, hf, hm]
      | none =>
        cases hc : (w.Create (w.MkdirAll (w.Open s f).1
            (filepath.Dir (foutOf w (setDir g f) f))).1 (foutOf w (setDir g f) f)).2.2 with
        | some e => simp [fileBody, ho, hf, hm, hc]
        | none =>
          simp [fileBody, ho, hf, hm, hc]
          exact ⟨_, rfl⟩

/-! ## The loop and `main`, position by position -/

theorem eachEvent_forall_quiet (Q : List Event → Event → List Event → Prop)
    (hq : ∀ x, x.quiet = true → ∀ pre post, Q pre x post) (t : List Event)
    (h : ∀ x ∈ t, x.quiet = true) : EachEvent Q t :=
  eachEvent_of_forall Q t fun x hx pre post => hq x (h x hx) pre post

theorem runDefers_quiet {σ : Type} (w : World σ) (ds : List Deferred) :
    ∀ s, ∀ x ∈ (runDefers w s ds).events, x.quiet = true := by
  induction ds with
  | nil => intro s x hx; simp [runDefers] at hx
  | cons d ds ih =>
    intro s x hx
    cases d with
    | close h =>
      simp only [runDefers, List.mem_cons] at hx
      rcases hx with rfl | hx
      · rfl
      · exact ih _ x hx
    | stopProfile h =>
      simp only [runDefers] at hx
      split at hx
      · simp only [List.mem_cons, List.mem_singleton, List.not_mem_nil, or_false] at hx
        rcases hx with rfl | rfl | rfl <;> rfl
      · simp only [List.cons_append, List.nil_append, List.mem_cons] at hx
        rcases hx with rfl | rfl | rfl | hx
        · rfl
        · rfl
        · rfl
        · exact ih _ x hx

/-- A property of every position that holds in each pass of the loop body
holds in the trace of the whole loop. `I` is an invariant of the flag
variables and `A` a property of the arguments. -/
theorem fileLoop_eachEvent {σ : Type} (w : World σ) (style : Nat)
    (Q : List Event → Event → List Event → Prop)
    (mono : ∀ a pre x post b, Q pre x post → Q (a ++ pre) x (post ++ b))
    (I : Flags → Prop) (hI : ∀ g f, I g → I (setDir g f)) (A : Str → Prop)
    (hbody : ∀ g s f, I g → A f → isPartial f = false →
      EachEvent Q (fileBody w style g s f).events) :
    ∀ args g s, I g → (∀ f ∈ args, A f) →
      EachEvent Q (fileLoop w style g s args).events := by
  intro args
  induction args with
  | nil => intro g s _ _; exact eachEvent_nil Q
  | cons f fs ih =>
    intro g s hg hA
    have hAf : A f := hA f (List.mem_cons_self f fs)
    have hAfs : ∀ f1 ∈ fs, A f1 := fun f1 h1 => hA f1 (List.mem_cons_of_mem f h1)
    unfold fileLoop
    by_cases hp : isPartial f = true
    · simp only [hp, if_true]
      exact ih g s hg hAfs
    · simp only [hp, if_false]
      have hp1 : isPartial f = false := by simpa using hp
      by_cases hfat : (fileBody w style g s f).fatal = true
      · simp only [hfat, if_true]
        exact hbody g s f hg hAf hp1
      · simp only [hfat, if_false]
        apply eachEvent_append Q mono _ _ (hbody g s f hg hAf hp1)
        apply ih
        · rw [(fileBody_shape w style g s f).1]
          exact hI g f hg
        · exact hAfs

theorem compileAll_eachEvent {σ : Type} (w : World σ) (s : σ) (g : Flags) (args : List Str)
    (ds : List Deferred) (Q : List Event → Event → List Event → Prop)
    (mono : ∀ a pre x post b, Q pre x post → Q (a ++ pre) x (post ++ b))
    (hq : ∀ x, x.quiet = true → ∀ pre post, Q pre x post)
    (hstdin : args = [] → ∀ s1, EachEvent Q (stdinMode w s1).1)
    (hloop : ∀ s1, EachEvent Q (fileLoop w (styleOf w g) g s1 args).events) :
    EachEvent Q (compileAll w s g args ds).events := by
  unfold compileAll
  have hi : EachEvent Q (if args.length = 0 then stdinMode w s else ([], s)).1 := by
    by_cases h0 : args.length = 0
    · simp only [h0, if_true]
      exact hstdin (List.length_eq_zero.mp h0) s
    · simp only [h0, if_false]
      exact eachEvent_nil Q
  by_cases hfat : (fileLoop w (styleOf w g) g
      (if args.length = 0 then stdinMode w s else ([], s)).2 args).fatal = true
  · simp only [hfat, if_true]
    exact eachEvent_append Q mono _ _ hi (hloop _)
  · simp only [hfat, if_false]
    apply eachEvent_append Q mono _ _ (eachEvent_append Q mono _ _ hi (hloop _))
    exact eachEvent_forall_quiet Q hq _ (runDefers_quiet w _ _)

theorem afterCheck_eachEvent {σ : Type} (w : World σ) (s : σ) (g : Flags) (args : List Str)
    (ds : List Deferred) (Q : List Event → Event → List Event → Prop)
    (mono : ∀ a pre x post b, Q pre x post → Q (a ++ pre) x (post ++ b))
    (hq : ∀ x, x.quiet = true → ∀ pre post, Q pre x post)
    (hstdin : args = [] → ∀ s1, EachEvent Q (stdinMode w s1).1)
    (hloop : ∀ s1, EachEvent Q (fileLoop w (styleOf w g) g s1 args).events) :
    EachEvent Q (afterCheck w s g args ds).events := by
  unfold afterCheck
  by_cases hh : g.Help = true
  · simp only [hh, if_true]
    refine eachEvent_append Q mono [_, _, _] _ ?_ ?_
    · exact eachEvent_forall_quiet Q hq _ (by simp [Event.quiet])
    · exact eachEvent_forall_quiet Q hq _ (runDefers_quiet w _ _)
  · simp only [hh, if_false]
    by_cases hg : g.Gen = []
    · simp only [hg, ne_eq, not_true_eq_false, if_false]
      exact compileAll_eachEvent w s g args ds Q mono hq hstdin hloop
    · simp only [ne_eq, hg, not_false_eq_true, if_true]
      cases hm : (w.MkdirAll s g.Gen).2 with
      | some e =>
        simp only [hm]
        exact eachEvent_forall_quiet Q hq _ (by simp [Event.quiet])
      | none =>
        simp only [hm]
        refine eachEvent_append Q mono [_] _ ?_
          (compileAll_eachEvent w (w.MkdirAll s g.Gen).1 g args ds Q mono hq hstdin hloop)
        exact eachEvent_forall_quiet Q hq _ (by simp [Event.quiet])

theorem checked_eachEvent {σ : Type} (w : World σ) (s : σ) (g : Flags) (args : List Str)
    (ds : List Deferred) (Q : List Event → Event → List Event → Prop)
    (mono : ∀ a pre x post b, Q pre x post → Q (a ++ pre) x (post ++ b))
    (hq : ∀ x, x.quiet = true → ∀ pre post, Q pre x post)
    (hstdin : args = [] → ∀ s1, EachEvent Q (stdinMode w s1).1)
    (hloop : ∀ s1, EachEvent Q (fileLoop w (styleOf w g) g s1 args).events) :
    EachEvent Q (checked w s g args ds).events := by
  unfold checked
  split
  · exact eachEvent_forall_quiet Q hq _ (by simp [Event.quiet])
  · exact afterCheck_eachEvent w s g args ds Q mono hq hstdin hloop

/-- A property of every position that holds for the quiet events, in
standard-input mode and in the loop holds in the trace of `main`. -/
theorem main_eachEvent {σ : Type} (w : World σ) (s : σ) (g : Flags) (args : List Str)
    (Q : List Event → Event → List Event → Prop)
    (mono : ∀ a pre x post b, Q pre x post → Q (a ++ pre) x (post ++ b))
    (hq : ∀ x, x.quiet = true → ∀ pre post, Q pre x post)
    (hstdin : args = [] → ∀ s1, EachEvent Q (stdinMode w s1).1)
    (hloop : ∀ s1, EachEvent Q (fileLoop w (styleOf w g) g s1 args).events) :
    EachEvent Q (main w s g args).events := by
  unfold main
  by_cases hv : g.ShowVersion = true
  · simp only [hv, if_true]
    exact eachEvent_forall_quiet Q hq _ (by simp [Event.quiet])
  · simp only [hv, if_false]
    by_cases hc : g.cpuprofile = []
    · simp only [hc, ne_eq, not_true_eq_false, if_false]
      exact checked_eachEvent w s g args [] Q mono hq hstdin hloop
    · simp only [ne_eq, hc, not_false_eq_true, if_true]
      cases hm : (w.Create s g.cpuprofile).2.2 with
      | some e =>
        simp only [hm]
        exact eachEvent_forall_quiet Q hq _ (by simp [Event.quiet])
      | none =>
        simp only [hm]
        refine eachEvent_append Q mono [_, _, _] _ ?_
          (checked_eachEvent w _ g args _ Q mono hq hstdin hloop)
        exact eachEvent_forall_quiet Q hq _ (by simp [Event.quiet])


theorem mem_of_eachEvent (R : Event → Prop) (t : List Event)
    (h : EachEvent (fun _ x _ => R x) t) : ∀ x ∈ t, R x := by
  intro x hx
  obtain ⟨pre, post, e⟩ := List.append_of_mem hx
  exact h pre x post e

theorem fileBody_protocol {σ : Type} (w : World σ) (style : Nat) (g : Flags) (s : σ)
    (f : Str) : EachEvent (parseThenCompile w) (fileBody w style g s f).events := by
  rcases (fileBody_shape w style g s f).2 with ⟨h, e, he, _⟩ | ⟨h, e, he, _⟩ |
    ⟨h, h1, e, he, _⟩ | ⟨h, h1, s1, he, _⟩ | ⟨h, s1, he, _⟩
  · rw [he]
    simp only [eachEvent_cons_iff, eachEvent_nil_iff, and_true]
    exact ⟨trivial, trivial⟩
  · rw [he]
    simp only [eachEvent_cons_iff, eachEvent_nil_iff, and_true]
    exact ⟨trivial, trivial, trivial⟩
  · rw [he]
    simp only [eachEvent_cons_iff, eachEvent_nil_iff, and_true]
    exact ⟨trivial, trivial, trivial, trivial⟩
  · rw [he]
    refine eachEvent_append _ (parseThenCompile_mono w) [_, _, _] _ ?_
      (parseCompile_protocol _ _ _ _ _ _)
    simp only [eachEvent_cons_iff, eachEvent_nil_iff, and_true]
    exact ⟨trivial, trivial, trivial⟩
  · rw [he]
    refine eachEvent_append _ (parseThenCompile_mono w) [_] _ ?_
      (parseCompile_protocol _ _ _ _ _ _)
    simp only [eachEvent_cons_iff, eachEvent_nil_iff, and_true]
    trivial

/-- C1: in a run on input files, every `Compile` comes right after the
`Start` of the parser made from the same context; the buffer it is given is
exactly the bytes `w.Start` returned, without error, and its result is what
`w.Compile` returns on them. When it fails, the next calls are `ErrorLine`
on that context, with the line `w.ErrorLine` reports after the failed
`Compile`, and `LookupFile` of that line on that same parser, and the
location `w.LookupFile` gives is the one logged, before the error.
`LookupFile` is called nowhere else, so never after a `Compile` that
succeeds. -/
theorem compile_gets_parser_bytes {σ : Type} (w : World σ) (s : σ) (g : Flags)
    (args : List Str) (hargs : args ≠ []) (pre : List Event) (x : Event)
    (post : List Event) (h : (main w s g args).events = pre ++ x :: post) :
    parseThenCompile w pre x post := by
  refine main_eachEvent w s g args (parseThenCompile w) (parseThenCompile_mono w)
    (parseThenCompile_of_quiet w) (fun h0 => absurd h0 hargs) ?_ pre x post h
  intro s1
  exact fileLoop_eachEvent w (styleOf w g) (parseThenCompile w) (parseThenCompile_mono w)
    (fun _ => True) (fun _ _ _ => trivial) (fun _ => True)
    (fun g1 s2 f _ _ _ => fileBody_protocol w (styleOf w g) g1 s2 f) args g s1 trivial
    (fun _ _ => trivial)

theorem compile_gets_parser_bytes_witness :
    ["b.scss".toList] ≠ [] ∧
    parseThenCompile (sampleWorld [] [] ["b.scss".toList])
      [.opened "b.scss".toList 3 none,
        .started (parserOf (ctxOf 0 { Gen := [], Dir := ".".toList } "b.scss".toList []))
          3 ".".toList [100, 105, 118] none]
      (.compiled (ctxOf 0 { Gen := [], Dir := ".".toList } "b.scss".toList [])
        [100, 105, 118] (some Stdout) (some "syntax error".toList))
      [.errorLine (ctxOf 0 { Gen := [], Dir := ".".toList } "b.scss".toList []) 1,
        .lookedUp (parserOf (ctxOf 0 { Gen := [], Dir := ".".toList } "b.scss".toList []))
          1 "b.scss".toList,
        .log "Error encountered in: b.scss".toList, .log "syntax error".toList,
        .closed 3 none] :=
  ⟨by decide,
   compile_gets_parser_bytes (sampleWorld [] [] ["b.scss".toList]) 0 { Gen := [] }
    ["b.scss".toList] (by decide) _ _ _ (by decide)⟩

/-! ## `startParser` -/

/-- C2: `startParser` is all-or-nothing on its writer. -/
theorem startParser_all_or_nothing {σ : Type} (w : World σ) (s : σ) (ctx : Context)
    (inp : File) (out : List Bytes) (pkgdir : Str) :
    (∀ e, (w.Start s (parserOf ctx) inp pkgdir).2.2 = some e →
      (startParser w s ctx inp out pkgdir).out = out ∧
      (startParser w s ctx inp out pkgdir).err = some e) ∧
    ((w.Start s (parserOf ctx) inp pkgdir).2.2 = none →
      (startParser w s ctx inp out pkgdir).out
        = out ++ [(w.Start s (parserOf ctx) inp pkgdir).2.1] ∧
      (startParser w s ctx inp out pkgdir).err = none) ∧
    (startParser w s ctx inp out pkgdir).parser = parserOf ctx ∧
    (startParser w s ctx inp out pkgdir).events
      = [.started (startParser w s ctx inp out pkgdir).parser inp pkgdir
          (w.Start s (parserOf ctx) inp pkgdir).2.1
          (w.Start s (parserOf ctx) inp pkgdir).2.2] ∧
    (startParser w s ctx inp out pkgdir).state
      = (w.Start s (startParser w s ctx inp out pkgdir).parser inp pkgdir).1 := by
  unfold startParser
  cases h : (w.Start s (parserOf ctx) inp pkgdir).2.2 <;> simp [h]

theorem startParser_all_or_nothing_witness :
    (startParser (sampleWorld [] ["a.scss".toList] []) 0 { MainFile := "a.scss".toList }
        Stdin [[1, 2]] []).out = [[1, 2]] ∧
    (startParser (sampleWorld [] ["a.scss".toList] []) 0 { MainFile := "a.scss".toList }
        Stdin [[1, 2]] []).err = some "parse error".toList ∧
    (startParser (sampleWorld [] [] []) 0 { MainFile := "a.scss".toList }
        Stdin [[1, 2]] []).out = [[1, 2], [100, 105, 118]] ∧
    (startParser (sampleWorld [] [] []) 0 { MainFile := "a.scss".toList }
        Stdin [[1, 2]] []).err = none :=
  ⟨((startParser_all_or_nothing (sampleWorld [] ["a.scss".toList] []) 0
      { MainFile := "a.scss".toList } Stdin [[1, 2]] []).1 "parse error".toList (by decide)).1,
   ((startParser_all_or_nothing (sampleWorld [] ["a.scss".toList] []) 0
      { MainFile := "a.scss".toList } Stdin [[1, 2]] []).1 "parse error".toList (by decide)).2,
   ((startParser_all_or_nothing (sampleWorld [] [] []) 0
      { MainFile := "a.scss".toList } Stdin [[1, 2]] []).2.1 (by decide)).1,
   ((startParser_all_or_nothing (sampleWorld [] [] []) 0
      { MainFile := "a.scss".toList } Stdin [[1, 2]] []).2.1 (by decide)).2⟩

/-! ## The include paths -/

theorem split_no_sep (sep : Char) (e : Str) (h : sep ∉ e) : strings.Split e sep = [e] := by
  induction e with
  | nil => rfl
  | cons c cs ih =>
    have hc : c ≠ sep := fun hh => h (by simp [hh])
    have hcs : sep ∉ cs := fun hh => h (List.mem_cons_of_mem c hh)
    simp [strings.Split, hc, ih hcs]

theorem split_append_sep (sep : Char) (e rest : Str) (h : sep ∉ e) :
    strings.Split (e ++ sep :: rest) sep = e :: strings.Split rest sep := by
  induction e with
  | nil => simp [strings.Split]
  | cons c cs ih =>
    have hc : c ≠ sep := fun hh => h (by simp [hh])
    have hcs : sep ∉ cs := fun hh => h (List.mem_cons_of_mem c hh)
    simp [strings.Split, hc, ih hcs]

/-- Splitting at the separator gives back the pieces that were joined
with it, when no piece holds the separator. -/
theorem split_join (sep : Char) (es : List Str) (hne : es ≠ [])
    (h : ∀ e ∈ es, sep ∉ e) : strings.Split (strings.Join es [sep]) sep = es := by
  induction es with
  | nil => exact absurd rfl hne
  | cons e es ih =>
    cases es with
    | nil => simpa [strings.Join] using split_no_sep sep e (h e (by simp))
    | cons e1 es =>
      have h1 : sep ∉ e := h e (by simp)
      have h2 : ∀ x ∈ e1 :: es, sep ∉ x := fun x hx => h x (List.mem_cons_of_mem e hx)
      have := ih (by simp) h2
      simp only [strings.Join, List.append_assoc, List.singleton_append]
      rw [split_append_sep sep e _ h1, this]

theorem startParser_builds {σ : Type} (w : World σ) (s : σ) (ctx : Context) (inp : File)
    (out : List Bytes) (pkgdir : Str) :
    (startParser w s ctx inp out pkgdir).parser = parserOf ctx := by
  unfold startParser
  cases h : (w.Start s (parserOf ctx) inp pkgdir).2.2 <;> simp [h]

theorem parseCompile_started {σ : Type} (w : World σ) (g : Flags) (s : σ) (ctx : Context)
    (fRead : File) (out : Option File) (p : Parser) (inp : File) (pkg : Str) (bs : Bytes)
    (err : Option Str) (h : Event.started p inp pkg bs err ∈ (parseCompile w g s ctx fRead out).1) :
    p = parserOf ctx := by
  rcases parseCompile_shape w g s ctx fRead out with ⟨bs, e, he⟩ | ⟨bs, he⟩ | ⟨bs, e, n, fs, he⟩ <;>
    · rw [he] at h
      simp at h
      exact h.1

theorem fileBody_started {σ : Type} (w : World σ) (style : Nat) (g : Flags) (s : σ) (f : Str)
    (p : Parser) (inp : File) (pkg : Str) (bs : Bytes) (err : Option Str)
    (h : Event.started p inp pkg bs err ∈ (fileBody w style g s f).events) :
    p = parserOf (ctxOf style (setDir g f) f (foutOf w (setDir g f) f)) := by
  rcases (fileBody_shape w style g s f).2 with ⟨h0, e, he, _⟩ | ⟨h0, e, he, _⟩ |
    ⟨h0, h1, e, he, _⟩ | ⟨h0, h1, s1, he, _⟩ | ⟨h0, s1, he, _⟩
  · rw [he] at h; simp at h
  · rw [he] at h; simp at h
  · rw [he] at h; simp at h
  · rw [he] at h
    simp only [List.cons_append, List.nil_append, List.mem_cons] at h
    rcases h with h | h | h | h
    · cases h
    · cases h
    · cases h
    · exact parseCompile_started _ _ _ _ _ _ _ _ _ _ _ h
  · rw [he] at h
    simp only [List.mem_cons] at h
    rcases h with h | h
    · cases h
    · exact parseCompile_started _ _ _ _ _ _ _ _ _ _ _ h

theorem setDir_Includes (g : Flags) (f : Str) : (setDir g f).Includes = g.Includes := by
  unfold setDir
  split <;> rfl

theorem ctxOf_MainFile (style : Nat) (g : Flags) (f fout : Str) :
    (ctxOf style g f fout).MainFile = f := by
  unfold ctxOf
  split <;> rfl

theorem ctxOf_IncludePaths (style : Nat) (g : Flags) (f fout : Str) :
    (ctxOf style g f fout).IncludePaths =
      filepath.Dir f :: (if g.Includes = [] then [] else strings.Split g.Includes ',') := by
  unfold ctxOf
  by_cases h : g.Includes = [] <;> simp [h]

theorem fileLoop_handsIncludes {σ : Type} (w : World σ) (style : Nat) (inc : Str)
    (args : List Str) (g : Flags) (s : σ) (hg : g.Includes = inc) :
    EachEvent (fun _ x _ => handsIncludes inc args x) (fileLoop w style g s args).events := by
  refine fileLoop_eachEvent w style _ (fun _ _ _ _ _ h => h) (fun g1 => g1.Includes = inc)
    (fun g1 f h1 => (setDir_Includes g1 f).trans h1) (fun f => f ∈ args) ?_ args g s hg
    (fun _ h => h)
  intro g1 s1 f hg1 hf hp
  apply eachEvent_of_forall
  intro x hx _ _
  cases x with
  | started p inp pkg bs err =>
    have hpe := fileBody_started w style g1 s1 f p inp pkg bs err hx
    subst hpe
    have hi : (setDir g1 f).Includes = inc := (setDir_Includes g1 f).trans hg1
    refine ⟨?_, ?_, ?_⟩
    · show (ctxOf style (setDir g1 f) f _).MainFile ∈ args
      rw [ctxOf_MainFile]
      exact hf
    · show isPartial (ctxOf style (setDir g1 f) f _).MainFile = false
      rw [ctxOf_MainFile]
      exact hp
    · show (ctxOf style (setDir g1 f) f _).IncludePaths =
        filepath.Dir (ctxOf style (setDir g1 f) f _).MainFile :: _
      rw [ctxOf_MainFile, ctxOf_IncludePaths, hi]
  | _ => trivial

/-- C5: in a run on input files, the include-path list of every parser
that is started is the directory of its file first, then the
comma-separated entries of `-p` in the order they were written; it is the
directory alone when `-p` is empty. The parser is that of a non-partial
argument, and `startParser` gives the parser the list of the context
unchanged. -/
theorem includes_in_order {σ : Type} (w : World σ) (s : σ) (g : Flags) (args : List Str)
    (hargs : args ≠ []) (p : Parser) (inp : File) (pkg : Str) (bs : Bytes)
    (err : Option Str) (h : Event.started p inp pkg bs err ∈ (main w s g args).events) :
    p.MainFile ∈ args ∧ isPartial p.MainFile = false ∧
    (g.Includes = [] → p.Includes = [filepath.Dir p.MainFile]) ∧
    (g.Includes ≠ [] → ∀ es : List Str, (∀ e ∈ es, ',' ∉ e) →
      strings.Join es [','] = g.Includes → p.Includes = filepath.Dir p.MainFile :: es) ∧
    (∀ (s1 : σ) (ctx : Context) (inp1 : File) (out : List Bytes) (pkg1 : Str),
      (startParser w s1 ctx inp1 out pkg1).parser.Includes = ctx.IncludePaths) := by
  have hall := mem_of_eachEvent (handsIncludes g.Includes args) _
    (main_eachEvent w s g args (fun _ x _ => handsIncludes g.Includes args x)
      (fun _ _ _ _ _ hh => hh)
      (fun x hx _ _ => by cases x <;> trivial)
      (fun h0 => absurd h0 hargs)
      (fun s1 => fileLoop_handsIncludes w (styleOf w g) g.Includes args g s1 rfl))
    _ h
  obtain ⟨h1, h2, h3⟩ := hall
  refine ⟨h1, h2, ?_, ?_, ?_⟩
  · intro h0
    rw [h3, if_pos h0]
  · intro h0 es hes hj
    rw [h3, if_neg h0, ← hj]
    have hne : es ≠ [] := by
      rintro rfl
      exact h0 (by rw [← hj]; rfl)
    rw [split_join ',' es hne hes]
  · intro s1 ctx inp1 out pkg1
    exact congrArg Parser.Includes (startParser_builds w s1 ctx inp1 out pkg1)

theorem includes_in_order_witness :
    ["a/x.scss".toList] ≠ [] ∧ "inc,lib".toList ≠ [] ∧
    (∀ e ∈ ["inc".toList, "lib".toList], ',' ∉ e) ∧
    strings.Join ["inc".toList, "lib".toList] [','] = "inc,lib".toList ∧
    (parserOf (ctxOf 0 { Includes := "inc,lib".toList, Dir := "a".toList }
      "a/x.scss".toList [])).Includes = ["a".toList, "inc".toList, "lib".toList] :=
  ⟨by decide, by decide, by decide, by decide,
   (includes_in_order (sampleWorld [] [] []) 0 { Includes := "inc,lib".toList }
      ["a/x.scss".toList] (by decide)
      (parserOf (ctxOf 0 { Includes := "inc,lib".toList, Dir := "a".toList }
        "a/x.scss".toList []))
      3 ".".toList [100, 105, 118] none (by decide)).2.2.2.1 (by decide)
      ["inc".toList, "lib".toList] (by decide) (by decide)⟩

/-! ## The loop, summed up -/

theorem opens_append (a b : List Event) : opens (a ++ b) = opens a ++ opens b := by
  induction a with
  | nil => rfl
  | cons x a ih => cases x <;> simp [opens, ih]

theorem starts_append (a b : List Event) : starts (a ++ b) = starts a ++ starts b := by
  induction a with
  | nil => rfl
  | cons x a ih => cases x <;> simp [starts, ih]

theorem parseCompile_summary {σ : Type} (w : World σ) (g : Flags) (s : σ) (ctx : Context)
    (fRead : File) (out : Option File) :
    opens (parseCompile w g s ctx fRead out).1 = [] ∧
    starts (parseCompile w g s ctx fRead out).1 = [ctx.MainFile] ∧
    ∀ x ∈ (parseCompile w g s ctx fRead out).1, x.failed = false := by
  rcases parseCompile_shape w g s ctx fRead out with ⟨bs, e, he⟩ | ⟨bs, he⟩ | ⟨bs, e, n, fs, he⟩ <;>
    · rw [he]
      simp [opens, starts, Event.failed, parserOf]

/-- What one pass of the loop body leaves: one `Open`, of its file; when it
is not fatal, one `Start`, of its file, and no failed call; when it is
fatal, a failed call and its message at the end and no `Start`. -/
theorem fileBody_summary {σ : Type} (w : World σ) (style : Nat) (g : Flags) (s : σ)
    (f : Str) :
    opens (fileBody w style g s f).events = [f] ∧
    ((fileBody w style g s f).fatal = false →
      starts (fileBody w style g s f).events = [f] ∧
      ∀ x ∈ (fileBody w style g s f).events, x.failed = false) ∧
    ((fileBody w style g s f).fatal = true →
      starts (fileBody w style g s f).events = [] ∧
      ∃ pre x m, (fileBody w style g s f).events = pre ++ [x, .log m] ∧ x.failed = true ∧
        ∀ y ∈ pre, y.failed = false) := by
  rcases (fileBody_shape w style g s f).2 with ⟨h0, e, he, hf⟩ | ⟨h0, e, he, hf⟩ |
    ⟨h0, h1, e, he, hf⟩ | ⟨h0, h1, s1, he, hf⟩ | ⟨h0, s1, he, _, hf⟩
  · rw [he, hf]
    refine ⟨by simp [opens], by simp, fun _ =>
      ⟨by simp [starts], [], _, _, rfl, rfl, by simp [Event.failed]⟩⟩
  · rw [he, hf]
    refine ⟨by simp [opens], by simp, fun _ =>
      ⟨by simp [starts], [_], _, _, rfl, rfl, by simp [Event.failed]⟩⟩
  · rw [he, hf]
    refine ⟨by simp [opens], by simp, fun _ =>
      ⟨by simp [starts], [_, _], _, _, rfl, rfl, by simp [Event.failed]⟩⟩
  · obtain ⟨p1, p2, p3⟩ := parseCompile_summary w (setDir g f) s1
      (ctxOf style (setDir g f) f (foutOf w (setDir g f) f)) h0 (some h1)
    rw [ctxOf_MainFile] at p2
    rw [he, hf]
    refine ⟨?_, fun _ => ⟨?_, ?_⟩, by simp⟩
    · rw [opens_append, p1]; simp [opens]
    · rw [starts_append, p2]; simp [starts]
    · intro x hx
      simp only [List.cons_append, List.nil_append, List.mem_cons] at hx
      rcases hx with rfl | rfl | rfl | hx
      · rfl
      · rfl
      · rfl
      · exact p3 x hx
  · obtain ⟨p1, p2, p3⟩ := parseCompile_summary w (setDir g f) s1
      (ctxOf style (setDir g f) f (foutOf w (setDir g f) f)) h0 (out0 (setDir g f))
    rw [ctxOf_MainFile] at p2
    rw [he, hf]
    refine ⟨?_, fun _ => ⟨?_, ?_⟩, by simp⟩
    · simp [opens, p1]
    · simp [starts, p2]
    · intro x hx
      simp only [List.mem_cons] at hx
      rcases hx with rfl | hx
      · rfl
      · exact p3 x hx

theorem fileLoop_cons_skipped {σ : Type} (w : World σ) (style : Nat) (g : Flags) (s : σ)
    (f : Str) (fs : List Str) (h : isPartial f = true) :
    fileLoop w style g s (f :: fs) = fileLoop w style g s fs := by
  rw [fileLoop]
  simp [h]

theorem fileLoop_cons_fatal {σ : Type} (w : World σ) (style : Nat) (g : Flags) (s : σ)
    (f : Str) (fs : List Str) (h : isPartial f = false)
    (hf : (fileBody w style g s f).fatal = true) :
    fileLoop w style g s (f :: fs) = fileBody w style g s f := by
  rw [fileLoop]
  simp [h, hf]

theorem fileLoop_cons_next {σ : Type} (w : World σ) (style : Nat) (g : Flags) (s : σ)
    (f : Str) (fs : List Str) (h : isPartial f = false)
    (hf : (fileBody w style g s f).fatal = false) :
    (fileLoop w style g s (f :: fs)).events = (fileBody w style g s f).events ++
      (fileLoop w style (fileBody w style g s f).flags (fileBody w style g s f).state
        fs).events ∧
    (fileLoop w style g s (f :: fs)).fatal =
      (fileLoop w style (fileBody w style g s f).flags (fileBody w style g s f).state
        fs).fatal := by
  rw [fileLoop]
  simp [h, hf]

/-- The loop does for a list of arguments what it does for the list
without its partials. -/
theorem fileLoop_nonPartials {σ : Type} (w : World σ) (style : Nat) (args : List Str) :
    ∀ (g : Flags) (s : σ),
      fileLoop w style g s args = fileLoop w style g s (nonPartials args) := by
  induction args with
  | nil => intro g s; rfl
  | cons f fs ih =>
    intro g s
    by_cases hp : isPartial f = true
    · rw [fileLoop_cons_skipped w style g s f fs hp]
      have : nonPartials (f :: fs) = nonPartials fs := by simp [nonPartials, hp]
      rw [this]
      exact ih g s
    · have hp1 : isPartial f = false := by simpa using hp
      have : nonPartials (f :: fs) = f :: nonPartials fs := by simp [nonPartials, hp1]
      rw [this]
      rw [fileLoop, fileLoop]
      simp only [hp1, Bool.false_eq_true, if_false]
      by_cases hf : (fileBody w style g s f).fatal = true
      · simp [hf]
      · simp only [hf, if_false]
        rw [ih]

/-- The loop, summed up: the files opened are an initial segment of the
non-partial arguments; when the loop is not fatal all of them are opened and
parsed and no call failed; when it is fatal its trace ends with a failed
call and the message of `log.Fatal`. -/
theorem fileLoop_summary {σ : Type} (w : World σ) (style : Nat) (args : List Str) :
    ∀ (g : Flags) (s : σ),
      opens (fileLoop w style g s args).events <+: nonPartials args ∧
      ((fileLoop w style g s args).fatal = false →
        opens (fileLoop w style g s args).events = nonPartials args ∧
        starts (fileLoop w style g s args).events = nonPartials args ∧
        ∀ x ∈ (fileLoop w style g s args).events, x.failed = false) ∧
      ((fileLoop w style g s args).fatal = true →
        ∃ pre x m, (fileLoop w style g s args).events = pre ++ [x, .log m] ∧
          x.failed = true ∧ ∀ y ∈ pre, y.failed = false) := by
  induction args with
  | nil =>
    intro g s
    simp [fileLoop, opens, starts, nonPartials]
  | cons f fs ih =>
    intro g s
    by_cases hp : isPartial f = true
    · rw [fileLoop_cons_skipped w style g s f fs hp]
      have : nonPartials (f :: fs) = nonPartials fs := by simp [nonPartials, hp]
      rw [this]
      exact ih g s
    · have hp1 : isPartial f = false := by simpa using hp
      have hnp : nonPartials (f :: fs) = f :: nonPartials fs := by simp [nonPartials, hp1]
      obtain ⟨b1, b2, b3⟩ := fileBody_summary w style g s f
      by_cases hf : (fileBody w style g s f).fatal = true
      · rw [fileLoop_cons_fatal w style g s f fs hp1 hf, hnp, b1]
        refine ⟨?_, fun h => ?_, fun _ => (b3 hf).2⟩
        · exact ⟨nonPartials fs, rfl⟩
        · rw [hf] at h
          cases h
      · have hf1 : (fileBody w style g s f).fatal = false := by simpa using hf
        obtain ⟨e1, e2⟩ := fileLoop_cons_next w style g s f fs hp1 hf1
        obtain ⟨i1, i2, i3⟩ := ih (fileBody w style g s f).flags (fileBody w style g s f).state
        obtain ⟨c1, c2⟩ := b2 hf1
        rw [e1, e2, hnp, opens_append, starts_append, b1, c1]
        refine ⟨?_, fun h => ⟨?_, ?_, ?_⟩, fun h => ?_⟩
        · obtain ⟨t, ht⟩ := i1
          exact ⟨t, by simp [← ht]⟩
        · simp [(i2 h).1]
        · simp [(i2 h).2.1]
        · intro x hx
          rcases List.mem_append.mp hx with hx | hx
          · exact c2 x hx
          · exact (i2 h).2.2 x hx
        · obtain ⟨pre, x, m, hx, hfail, hpre⟩ := i3 h
          refine ⟨(fileBody w style g s f).events ++ pre, x, m, by simp [hx], hfail, ?_⟩
          intro y hy
          rcases List.mem_append.mp hy with hy | hy
          · exact c2 y hy
          · exact hpre y hy

/-! ## A run stops only at a failed call -/

theorem opens_quiet (t : List Event) (h : ∀ x ∈ t, x.quiet = true) : opens t = [] := by
  induction t with
  | nil => rfl
  | cons x t ih =>
    have hx := h x (by simp)
    have ht := ih (fun y hy => h y (by simp [hy]))
    cases x <;> first | (simp [opens, ht]; done) | exact absurd hx (by simp [Event.quiet])

theorem starts_quiet (t : List Event) (h : ∀ x ∈ t, x.quiet = true) : starts t = [] := by
  induction t with
  | nil => rfl
  | cons x t ih =>
    have hx := h x (by simp)
    have ht := ih (fun y hy => h y (by simp [hy]))
    cases x <;> first | (simp [starts, ht]; done) | exact absurd hx (by simp [Event.quiet])

theorem stops_prepend (args : List Str) (pre t : List Event) (exit : Exit)
    (hq : ∀ x ∈ pre, x.quiet = true) (hf : ∀ x ∈ pre, x.failed = false)
    (h : StopsOnlyAtFailedCall args t exit) : StopsOnlyAtFailedCall args (pre ++ t) exit := by
  obtain ⟨h1, h2⟩ := h
  constructor
  · intro hall
    have := h1 (fun x hx => hall x (List.mem_append_right pre hx))
    rw [opens_append, starts_append, opens_quiet pre hq, starts_quiet pre hq]
    simpa using this
  · rintro ⟨x, hx, hfx⟩
    rcases List.mem_append.mp hx with hx | hx
    · rw [hf x hx] at hfx
      cases hfx
    · obtain ⟨p, y, m, e, hy, hp, hex⟩ := h2 ⟨x, hx, hfx⟩
      refine ⟨pre ++ p, y, m, by simp [e], hy, ?_, hex⟩
      intro z hz
      rcases List.mem_append.mp hz with hz | hz
      · exact hf z hz
      · exact hp z hz

theorem stops_at_tail (args : List Str) (pre : List Event) (x : Event) (m : Str)
    (hx : x.failed = true) (hp : ∀ y ∈ pre, y.failed = false) :
    StopsOnlyAtFailedCall args (pre ++ [x, .log m]) (.exited 1) := by
  constructor
  · intro hall
    have := hall x (by simp)
    rw [hx] at this
    cases this
  · intro _
    exact ⟨pre, x, m, rfl, hx, hp, rfl⟩

theorem runDefers_not_failed {σ : Type} (w : World σ) (ds : List Deferred) :
    ∀ s, ∀ x ∈ (runDefers w s ds).events, x.failed = false := by
  induction ds with
  | nil => intro s x hx; simp [runDefers] at hx
  | cons d ds ih =>
    intro s x hx
    cases d with
    | close h =>
      simp only [runDefers, List.mem_cons] at hx
      rcases hx with rfl | hx
      · rfl
      · exact ih _ x hx
    | stopProfile h =>
      simp only [runDefers] at hx
      split at hx
      · simp only [List.mem_cons, List.mem_singleton, List.not_mem_nil, or_false] at hx
        rcases hx with rfl | rfl | rfl <;> rfl
      · simp only [List.cons_append, List.nil_append, List.mem_cons] at hx
        rcases hx with rfl | rfl | rfl | hx
        · rfl
        · rfl
        · rfl
        · exact ih _ x hx

theorem stdinMode_summary {σ : Type} (w : World σ) (s : σ) :
    opens (stdinMode w s).1 = [] ∧ ∀ x ∈ (stdinMode w s).1, x.failed = false := by
  unfold stdinMode startParser
  cases h : (w.Start s (parserOf {}) Stdin []).2.2 <;>
    simp only [h] <;> split <;> simp [opens, Event.failed]

theorem compileAll_stops {σ : Type} (w : World σ) (s : σ) (g : Flags) (args : List Str)
    (ds : List Deferred) :
    StopsOnlyAtFailedCall args (compileAll w s g args ds).events
      (compileAll w s g args ds).exit := by
  unfold compileAll
  by_cases h0 : args = []
  · subst h0
    obtain ⟨i1, i2⟩ := stdinMode_summary w s
    simp only [List.length_nil, if_true, fileLoop, Bool.false_eq_true, if_false,
      List.append_nil, List.nil_append]
    constructor
    · intro _
      rw [opens_append, i1, opens_quiet _ (runDefers_quiet w _ _)]
      exact ⟨rfl, fun h => absurd rfl h⟩
    · rintro ⟨x, hx, hf⟩
      rcases List.mem_append.mp hx with hx | hx
      · rw [i2 x hx] at hf; cases hf
      · rw [runDefers_not_failed w _ _ x hx] at hf; cases hf
  · have hl : ¬ args.length = 0 := fun h => h0 (List.length_eq_zero.mp h)
    simp only [hl, if_false, List.nil_append]
    obtain ⟨l1, l2, l3⟩ := fileLoop_summary w (styleOf w g) args g s
    by_cases hfat : (fileLoop w (styleOf w g) g s args).fatal = true
    · simp only [hfat, if_true]
      obtain ⟨pre, x, m, e, hx, hp⟩ := l3 hfat
      rw [e]
      exact stops_at_tail args pre x m hx hp
    · have hfat1 : (fileLoop w (styleOf w g) g s args).fatal = false := by simpa using hfat
      simp only [hfat1, Bool.false_eq_true, if_false]
      obtain ⟨o1, o2, o3⟩ := l2 hfat1
      constructor
      · intro _
        rw [opens_append, starts_append, o1, o2, opens_quiet _ (runDefers_quiet w _ _),
          starts_quiet _ (runDefers_quiet w _ _)]
        simp
      · rintro ⟨x, hx, hf⟩
        rcases List.mem_append.mp hx with hx | hx
        · rw [o3 x hx] at hf; cases hf
        · rw [runDefers_not_failed w _ _ x hx] at hf; cases hf

theorem afterCheck_stops {σ : Type} (w : World σ) (s : σ) (g : Flags) (args : List Str)
    (ds : List Deferred) (hh : g.Help = false) :
    StopsOnlyAtFailedCall args (afterCheck w s g args ds).events
      (afterCheck w s g args ds).exit := by
  unfold afterCheck
  simp only [hh, Bool.false_eq_true, if_false]
  by_cases hg : g.Gen = []
  · simp only [hg, ne_eq, not_true_eq_false, if_false]
    exact compileAll_stops w s g args ds
  · simp only [ne_eq, hg, not_false_eq_true, if_true]
    cases hm : (w.MkdirAll s g.Gen).2 with
    | some e =>
      simp only [hm]
      exact stops_at_tail args [] _ e rfl (by simp)
    | none =>
      simp only [hm]
      exact stops_prepend args [.mkdirAll g.Gen none] _ _ (by simp [Event.quiet])
        (by simp [Event.failed]) (compileAll_stops w _ g args ds)

theorem checked_stops {σ : Type} (w : World σ) (s : σ) (g : Flags) (args : List Str)
    (ds : List Deferred) (hh : g.Help = false)
    (hd : ∀ v ∈ args, strings.HasPrefix v "-".toList = false) :
    StopsOnlyAtFailedCall args (checked w s g args ds).events
      (checked w s g args ds).exit := by
  unfold checked
  have : args.find? (fun v => strings.HasPrefix v "-".toList) = none := by
    rw [List.find?_eq_none]
    intro v hv
    rw [hd v hv]
    exact Bool.false_ne_true
  rw [this]
  exact afterCheck_stops w s g args ds hh

theorem main_stops {σ : Type} (w : World σ) (s : σ) (g : Flags) (args : List Str)
    (hv : g.ShowVersion = false) (hh : g.Help = false)
    (hd : ∀ v ∈ args, strings.HasPrefix v "-".toList = false) :
    StopsOnlyAtFailedCall args (main w s g args).events (main w s g args).exit := by
  unfold main
  simp only [hv, Bool.false_eq_true, if_false]
  by_cases hc : g.cpuprofile = []
  · simp only [hc, ne_eq, not_true_eq_false, if_false]
    exact checked_stops w s g args [] hh hd
  · simp only [ne_eq, hc, not_false_eq_true, if_true]
    cases hm : (w.Create s g.cpuprofile).2.2 with
    | some e =>
      simp only [hm]
      exact stops_at_tail args [] _ e rfl (by simp)
    | none =>
      simp only [hm]
      exact stops_prepend args [_, _, _] _ _ (by simp [Event.quiet])
        (by simp [Event.failed]) (checked_stops w _ g args _ hh hd)

/-! ## Failures and partials -/

/-- C3, as stated, fails: `missing.scss` cannot be opened, the run ends in
`log.Fatal` and the later file `b.scss` is never opened. -/
theorem failed_open_stops_later_files :
    isPartial "b.scss".toList = false ∧
    (main (sampleWorld ["missing.scss".toList] [] []) 0 {}
      ["missing.scss".toList, "b.scss".toList]).events =
      [.mkdirAll ".".toList none,
        .opened "missing.scss".toList 0 (some "no such file".toList),
        .log "no such file".toList] ∧
    (main (sampleWorld ["missing.scss".toList] [] []) 0 {}
      ["missing.scss".toList, "b.scss".toList]).exit = .exited 1 ∧
    "b.scss".toList ∉ opens (main (sampleWorld ["missing.scss".toList] [] []) 0 {}
      ["missing.scss".toList, "b.scss".toList]).events := by
  decide

/-- C4, as amended: the loop does for a list of paths exactly what it does
for the list without the paths whose base name begins with `_`, so nothing
is opened, created, parsed or compiled for a partial. The other paths are
processed in command-line order up to an abort: the files opened are an
initial segment of the non-partial paths, and when the loop does not end in
`log.Fatal` every one of them is opened and its parser started. -/
theorem partials_are_skipped {σ : Type} (w : World σ) (style : Nat) (g : Flags) (s : σ)
    (args : List Str) :
    fileLoop w style g s args = fileLoop w style g s (nonPartials args) ∧
    (∀ f ∈ nonPartials args, f ∈ args ∧ strings.HasPrefix (filepath.Base f) "_".toList = false) ∧
    (∀ f ∈ args, strings.HasPrefix (filepath.Base f) "_".toList = true →
      f ∉ opens (fileLoop w style g s args).events) ∧
    opens (fileLoop w style g s args).events <+: nonPartials args ∧
    ((fileLoop w style g s args).fatal = false →
      opens (fileLoop w style g s args).events = nonPartials args ∧
      starts (fileLoop w style g s args).events = nonPartials args) := by
  obtain ⟨l1, l2, _⟩ := fileLoop_summary w style args g s
  have hnp : ∀ f ∈ nonPartials args,
      f ∈ args ∧ strings.HasPrefix (filepath.Base f) "_".toList = false := by
    intro f hf
    have := List.mem_filter.mp hf
    exact ⟨this.1, by simpa [isPartial] using this.2⟩
  refine ⟨fileLoop_nonPartials w style args g s, hnp, ?_, l1, fun h => ⟨(l2 h).1, (l2 h).2.1⟩⟩
  intro f _ hp hmem
  have := (hnp f (l1.subset hmem)).2
  rw [hp] at this
  cases this

theorem partials_are_skipped_witness :
    (fileLoop (sampleWorld [] [] []) 0 {} 0
        ["a.scss".toList, "d/_p.scss".toList, "c.scss".toList]).fatal = false ∧
    opens (fileLoop (sampleWorld [] [] []) 0 {} 0
        ["a.scss".toList, "d/_p.scss".toList, "c.scss".toList]).events =
      ["a.scss".toList, "c.scss".toList] ∧
    "d/_p.scss".toList ∉ opens (fileLoop (sampleWorld [] [] []) 0 {} 0
        ["a.scss".toList, "d/_p.scss".toList, "c.scss".toList]).events :=
  ⟨by decide,
   ((partials_are_skipped (sampleWorld [] [] []) 0 {} 0
      ["a.scss".toList, "d/_p.scss".toList, "c.scss".toList]).2.2.2.2 (by decide)).1.trans
      (by decide),
   (partials_are_skipped (sampleWorld [] [] []) 0 {} 0
      ["a.scss".toList, "d/_p.scss".toList, "c.scss".toList]).2.2.1 "d/_p.scss".toList
      (by decide) (by decide)⟩

/-- C4, as stated, fails: the base name of `c.scss` does not begin with
`_`, yet it is not processed, because the run ends in `log.Fatal` at
`gone.scss`, which cannot be opened. -/
theorem non_partial_not_processed_after_abort :
    strings.HasPrefix (filepath.Base "c.scss".toList) "_".toList = false ∧
    opens (main (sampleWorld ["gone.scss".toList] [] []) 0 {}
      ["_p.scss".toList, "gone.scss".toList, "c.scss".toList]).events =
      ["gone.scss".toList] ∧
    starts (main (sampleWorld ["gone.scss".toList] [] []) 0 {}
      ["_p.scss".toList, "gone.scss".toList, "c.scss".toList]).events = [] ∧
    (main (sampleWorld ["gone.scss".toList] [] []) 0 {}
      ["_p.scss".toList, "gone.scss".toList, "c.scss".toList]).exit = .exited 1 := by
  decide

/-! ## The parts of a trace of `main` -/

theorem decomposes_quiet {σ : Type} (w : World σ) (g : Flags) (args : List Str)
    (t : List Event) (h : ∀ x ∈ t, x.quiet = true) : Decomposes w g args t :=
  ⟨t, [], [], by simp, h, by simp, Or.inl rfl⟩

theorem decomposes_prepend {σ : Type} (w : World σ) (g : Flags) (args : List Str)
    (a t : List Event) (ha : ∀ x ∈ a, x.quiet = true) (h : Decomposes w g args t) :
    Decomposes w g args (a ++ t) := by
  obtain ⟨pre, mid, post, e, h1, h2, h3⟩ := h
  refine ⟨a ++ pre, mid, post, by simp [e], ?_, h2, h3⟩
  intro x hx
  rcases List.mem_append.mp hx with hx | hx
  · exact ha x hx
  · exact h1 x hx

theorem compileAll_decomposes {σ : Type} (w : World σ) (s : σ) (g : Flags)
    (args : List Str) (ds : List Deferred) :
    Decomposes w g args (compileAll w s g args ds).events := by
  unfold compileAll
  by_cases h0 : args = []
  · subst h0
    simp only [List.length_nil, if_true, fileLoop, Bool.false_eq_true, if_false,
      List.append_nil]
    exact ⟨[], _, _, rfl, by simp, runDefers_quiet w _ _, Or.inr (Or.inl ⟨rfl, s, rfl⟩)⟩
  · have hl : ¬ args.length = 0 := fun h => h0 (List.length_eq_zero.mp h)
    simp only [hl, if_false, List.nil_append]
    by_cases hfat : (fileLoop w (styleOf w g) g s args).fatal = true
    · simp only [hfat, if_true]
      exact ⟨[], (fileLoop w (styleOf w g) g s args).events, [], by simp, by simp, by simp,
        Or.inr (Or.inr ⟨h0, s, rfl⟩)⟩
    · have hfat1 : (fileLoop w (styleOf w g) g s args).fatal = false := by simpa using hfat
      simp only [hfat1, Bool.false_eq_true, if_false]
      exact ⟨[], _, _, rfl, by simp, runDefers_quiet w _ _,
        Or.inr (Or.inr ⟨h0, s, rfl⟩)⟩

theorem afterCheck_decomposes {σ : Type} (w : World σ) (s : σ) (g : Flags)
    (args : List Str) (ds : List Deferred) :
    Decomposes w g args (afterCheck w s g args ds).events := by
  unfold afterCheck
  by_cases hh : g.Help = true
  · simp only [hh, if_true]
    apply decomposes_quiet
    intro x hx
    rcases List.mem_append.mp hx with hx | hx
    · have h3 : ∀ y ∈ [Event.print "Please specify input filepath.".toList,
          Event.print "\nAvailable options:".toList, Event.printDefaults],
          y.quiet = true := by simp [Event.quiet]
      exact h3 x hx
    · exact runDefers_quiet w _ _ x hx
  · simp only [hh, if_false]
    by_cases hg : g.Gen = []
    · simp only [hg, ne_eq, not_true_eq_false, if_false]
      exact compileAll_decomposes w s g args ds
    · simp only [ne_eq, hg, not_false_eq_true, if_true]
      cases hm : (w.MkdirAll s g.Gen).2 with
      | some e =>
        simp only [hm]
        exact decomposes_quiet w g args _ (by simp [Event.quiet])
      | none =>
        simp only [hm]
        exact decomposes_prepend w g args [_] _ (by simp [Event.quiet])
          (compileAll_decomposes w _ g args ds)

theorem checked_decomposes {σ : Type} (w : World σ) (s : σ) (g : Flags)
    (args : List Str) (ds : List Deferred) :
    Decomposes w g args (checked w s g args ds).events := by
  unfold checked
  cases args.find? (fun v => strings.HasPrefix v "-".toList) with
  | some v => exact decomposes_quiet w g args _ (by simp [Event.quiet])
  | none => exact afterCheck_decomposes w s g args ds

theorem main_decomposes {σ : Type} (w : World σ) (s : σ) (g : Flags) (args : List Str) :
    Decomposes w g args (main w s g args).events := by
  unfold main
  by_cases hv : g.ShowVersion = true
  · simp only [hv, if_true]
    exact decomposes_quiet w g args _ (by simp [Event.quiet])
  · simp only [hv, if_false]
    by_cases hc : g.cpuprofile = []
    · simp only [hc, ne_eq, not_true_eq_false, if_false]
      exact checked_decomposes w s g args []
    · simp only [ne_eq, hc, not_false_eq_true, if_true]
      cases hm : (w.Create s g.cpuprofile).2.2 with
      | some e =>
        simp only [hm]
        exact decomposes_quiet w g args _ (by simp [Event.quiet])
      | none =>
        simp only [hm]
        exact decomposes_prepend w g args [_, _, _] _ (by simp [Event.quiet])
          (checked_decomposes w _ g args _)

/-- The two traces of standard-input mode: the parser failed and the
compiler is given an empty buffer, or the parser returned bytes and the
compiler is given them. `tail` is the log of the compiler's error. -/
theorem stdinMode_shape {σ : Type} (w : World σ) (s : σ) :
    (∃ bs e cerr tail, (stdinMode w s).1 =
      [.log "Reading from stdin, -h for help".toList,
        .started (parserOf {}) Stdin [] bs (some e), .log e,
        .compiled {} [] (some Stdout) cerr] ++ tail ∧
      (∀ x ∈ tail, x.quiet = true) ∧
      (∃ s1, cerr = (w.Compile s1 {} [] (some Stdout)).2) ∧
      (∀ ce, cerr = some ce → tail = [.log ce])) ∨
    (∃ bs err tail, (stdinMode w s).1 =
      [.log "Reading from stdin, -h for help".toList,
        .started (parserOf {}) Stdin [] bs none,
        .compiled {} bs (some Stdout) err] ++ tail ∧ ∀ x ∈ tail, x.quiet = true) := by
  unfold stdinMode startParser
  cases h : (w.Start s (parserOf {}) Stdin []).2.2 with
  | some e =>
    left
    simp only [h, List.flatten_nil]
    cases hc : (w.Compile (w.Start s (parserOf {}) Stdin []).1 {} [] (some Stdout)).2 with
    | none => exact ⟨_, e, none, [], rfl, by simp, ⟨_, hc.symm⟩, by simp⟩
    | some ce =>
      refine ⟨_, e, some ce, [.log ce], rfl, by simp [Event.quiet], ⟨_, hc.symm⟩, ?_⟩
      intro ce1 h1
      cases h1
      rfl
  | none =>
    right
    simp only [h, List.nil_append, List.flatten_cons, List.flatten_nil, List.append_nil]
    cases hc : (w.Compile (w.Start s (parserOf {}) Stdin []).1 {}
        (w.Start s (parserOf {}) Stdin []).2.1 (some Stdout)).2 with
    | none => exact ⟨_, none, [], rfl, by simp⟩
    | some ce => exact ⟨_, some ce, [.log ce], rfl, by simp [Event.quiet]⟩

/-! ## Standard-input mode -/

theorem not_quiet_mem_mid (pre mid post : List Event) (x : Event) (hq : x.quiet = false)
    (hpre : ∀ y ∈ pre, y.quiet = true) (hpost : ∀ y ∈ post, y.quiet = true)
    (h : x ∈ pre ++ mid ++ post) : x ∈ mid := by
  rcases List.mem_append.mp h with h | h
  · rcases List.mem_append.mp h with h | h
    · rw [hpre x h] at hq; cases hq
    · exact h
  · rw [hpost x h] at hq; cases hq

/-- C8: in standard-input mode, when the parser returns an error, the
buffer of every `Compile` of the run is empty, the `Compile` comes right
after the log of the parser's error, and only deferred calls follow it; if
`Compile` answers an empty buffer with the error "No input provided", the
run logs that error and compiles nothing else. -/
theorem stdin_failed_parse_compiles_empty {σ : Type} (w : World σ) (s : σ) (g : Flags)
    (p : Parser) (inp : File) (pkg : Str) (bs : Bytes) (e : Str)
    (h : Event.started p inp pkg bs (some e) ∈ (main w s g []).events) :
    (∀ ctx buf out err, Event.compiled ctx buf out err ∈ (main w s g []).events →
      buf = []) ∧
    (∃ pre ctx out err post, (main w s g []).events =
      pre ++ [.started p inp pkg bs (some e), .log e, .compiled ctx [] out err] ++ post ∧
      (∀ x ∈ pre, x.quiet = true) ∧ ∀ x ∈ post, x.quiet = true) ∧
    ((∀ s1 ctx out, (w.Compile s1 ctx [] out).2 = some "No input provided".toList) →
      ∃ pre ctx out post, (main w s g []).events =
        pre ++ [.started p inp pkg bs (some e), .log e,
          .compiled ctx [] out (some "No input provided".toList),
          .log "No input provided".toList] ++ post ∧
        (∀ x ∈ pre, x.quiet = true) ∧ ∀ x ∈ post, x.quiet = true) := by
  obtain ⟨pre, mid, post, hev, hpre, hpost, hmid⟩ := main_decomposes w s g []
  rw [hev] at h ⊢
  have hm := not_quiet_mem_mid pre mid post (.started p inp pkg bs (some e)) rfl hpre hpost h
  rcases hmid with rfl | ⟨_, s1, rfl⟩ | ⟨hne, _⟩
  · simp at hm
  · rcases stdinMode_shape w s1 with ⟨bs0, e0, cerr, tail, hs, htail, ⟨s2, hcerr⟩, hlog⟩ |
      ⟨bs0, err0, tail, hs, htail⟩
    · rw [hs] at hm ⊢
      have hx : Event.started p inp pkg bs (some e) =
          Event.started (parserOf {}) Stdin [] bs0 (some e0) := by
        rcases List.mem_append.mp hm with hm | hm
        · simp only [List.mem_cons, List.mem_singleton, List.not_mem_nil, or_false] at hm
          rcases hm with hm | hm | hm | hm
          · cases hm
          · exact hm
          · cases hm
          · cases hm
        · have := htail _ hm
          cases this
      have he : e0 = e := by injection hx with _ _ _ _ h5; injection h5 with h6; exact h6.symm
      rw [hx]
      have hpre1 : ∀ x ∈ pre ++ [Event.log "Reading from stdin, -h for help".toList],
          x.quiet = true := by
        intro x hx1
        rcases List.mem_append.mp hx1 with hx1 | hx1
        · exact hpre x hx1
        · simp only [List.mem_singleton] at hx1
          subst hx1
          rfl
      refine ⟨?_, ?_, ?_⟩
      · intro ctx buf out err hc
        have hc1 := not_quiet_mem_mid pre _ post (.compiled ctx buf out err) rfl hpre hpost hc
        rcases List.mem_append.mp hc1 with hc1 | hc1
        · simp only [List.mem_cons, List.mem_singleton, List.not_mem_nil, or_false] at hc1
          rcases hc1 with hc1 | hc1 | hc1 | hc1
          · cases hc1
          · cases hc1
          · cases hc1
          · injection hc1 with _ hb _ _
        · have := htail _ hc1
          cases this
      · refine ⟨pre ++ [.log "Reading from stdin, -h for help".toList], {}, some Stdout,
          cerr, tail ++ post, by simp [he], hpre1, ?_⟩
        intro x hx1
        rcases List.mem_append.mp hx1 with hx1 | hx1
        · exact htail x hx1
        · exact hpost x hx1
      · intro hcontract
        have hce : cerr = some "No input provided".toList := by
          rw [hcerr]
          exact hcontract s2 {} (some Stdout)
        refine ⟨pre ++ [.log "Reading from stdin, -h for help".toList], {}, some Stdout,
          post, ?_, hpre1, hpost⟩
        rw [hlog _ hce, hce]
        simp [he]
    · rw [hs] at hm
      rcases List.mem_append.mp hm with hm | hm
      · simp only [List.mem_cons, List.mem_singleton, List.not_mem_nil, or_false] at hm
        rcases hm with hm | hm | hm
        · cases hm
        · cases hm
        · cases hm
      · have := htail _ hm
        cases this
  · exact absurd rfl hne

theorem stdin_failed_parse_compiles_empty_witness :
    Event.started (parserOf {}) Stdin [] [47, 42] (some "parse error".toList) ∈
      (main (sampleWorld [] [[]] []) 0 {} []).events ∧
    (∀ s1 ctx out, ((sampleWorld [] [[]] []).Compile s1 ctx [] out).2 =
      some "No input provided".toList) ∧
    ∃ pre ctx out post, (main (sampleWorld [] [[]] []) 0 {} []).events =
      pre ++ [.started (parserOf {}) Stdin [] [47, 42] (some "parse error".toList),
        .log "parse error".toList,
        .compiled ctx [] out (some "No input provided".toList),
        .log "No input provided".toList] ++ post ∧
      (∀ x ∈ pre, x.quiet = true) ∧ ∀ x ∈ post, x.quiet = true :=
  ⟨by decide, fun _ _ _ => rfl,
   (stdin_failed_parse_compiles_empty (sampleWorld [] [[]] []) 0 {} (parserOf {}) Stdin []
      [47, 42] "parse error".toList (by decide)).2.2 (fun _ _ _ => rfl)⟩

/-! ## The check of the arguments, the image directory, the output name -/

/-- C10, as stated, fails: with `-version` a positional argument that
begins with `-` does not make the run abort with the message; the version
is printed and the exit code is 0. -/
theorem version_comes_before_the_flag_check :
    strings.HasPrefix "-x".toList "-".toList = true ∧
    (main (sampleWorld [] [] []) 0 { ShowVersion := true } ["-x".toList]).events =
      [.print version] ∧
    (main (sampleWorld [] [] []) 0 { ShowVersion := true } ["-x".toList]).exit = .exited 0 := by
  decide

/-- C6 fails on the code: with no `-dir`, the second input file `b/y.scss`
gets the image directory `a` of the first file, not its own directory `b`. -/
theorem image_dir_of_second_file :
    ({} : Flags).Dir = [] ∧
    isPartial "b/y.scss".toList = false ∧
    filepath.Dir "b/y.scss".toList = "b".toList ∧
    Event.started
      { ImageDir := "a".toList, Includes := ["b".toList], BuildDir := ".".toList,
        MainFile := "b/y.scss".toList } 4 ".".toList [100, 105, 118] none ∈
      (main (sampleWorld [] [] []) 0 {} ["a/x.scss".toList, "b/y.scss".toList]).events ∧
    Event.compiled
      { Sprites := some .SpriteCache, Imgs := some .ImageCache, OutputStyle := 0,
        ImageDir := "a".toList, FontDir := ".".toList, BuildDir := ".".toList,
        GenImgDir := ".".toList, MainFile := "b/y.scss".toList, Comments := true,
        IncludePaths := ["b".toList] } [100, 105, 118] (some Stdout) none ∈
      (main (sampleWorld [] [] []) 0 {} ["a/x.scss".toList, "b/y.scss".toList]).events := by
  decide

/-- C9 fails on the code: the base name `a.scss.scss` ends in `.scss`, but
line 149 replaces the first `.scss`, so the output file is
`build/a.css.scss`, whose base name does not end in `.css`. -/
theorem output_name_of_double_extension :
    strings.HasSuffix (filepath.Base "a.scss.scss".toList) ".scss".toList = true ∧
    outName "a.scss.scss".toList = "a.css.scss".toList ∧
    strings.HasSuffix (outName "a.scss.scss".toList) ".css".toList = false ∧
    Event.created "build/a.css.scss".toList 4 none ∈
      (main (sampleWorld [] [] []) 0 { BuildDir := "build".toList }
        ["a.scss.scss".toList]).events ∧
    filepath.Base "build/a.css.scss".toList = "a.css.scss".toList := by
  decide

/-! ## Parser and compiler errors stop nothing -/

theorem compiles_append (a b : List Event) : compiles (a ++ b) = compiles a ++ compiles b := by
  induction a with
  | nil => rfl
  | cons x a ih => cases x <;> simp [compiles, ih]

theorem parsedOk_append (a b : List Event) : parsedOk (a ++ b) = parsedOk a ++ parsedOk b := by
  induction a with
  | nil => rfl
  | cons x a ih =>
    cases x with
    | started p inp pkg bs err => cases err <;> simp [parsedOk, ih]
    | _ => simp [parsedOk, ih]

theorem compiles_quiet (t : List Event) (h : ∀ x ∈ t, x.quiet = true) : compiles t = [] := by
  induction t with
  | nil => rfl
  | cons x t ih =>
    have hx := h x (by simp)
    have ht := ih (fun y hy => h y (by simp [hy]))
    cases x <;> first | (simp [compiles, ht]; done) | exact absurd hx (by simp [Event.quiet])

theorem parsedOk_quiet (t : List Event) (h : ∀ x ∈ t, x.quiet = true) : parsedOk t = [] := by
  induction t with
  | nil => rfl
  | cons x t ih =>
    have hx := h x (by simp)
    have ht := ih (fun y hy => h y (by simp [hy]))
    cases x <;> first | (simp [parsedOk, ht]; done) | exact absurd hx (by simp [Event.quiet])

theorem parsedOk_eq_starts (t : List Event) (h : ∀ x ∈ t, x.parseFailed = false) :
    parsedOk t = starts t := by
  induction t with
  | nil => rfl
  | cons x t ih =>
    have ht := ih (fun y hy => h y (List.mem_cons_of_mem x hy))
    have hx := h x (List.mem_cons_self x t)
    cases x with
    | started p inp pkg bs err =>
      cases err with
      | none => simp [parsedOk, starts, ht]
      | some e => exact absurd hx (by simp [Event.parseFailed])
    | _ => simp [parsedOk, starts, ht]

theorem parseCompile_compiles {σ : Type} (w : World σ) (g : Flags) (s : σ) (ctx : Context)
    (fRead : File) (out : Option File) :
    compiles (parseCompile w g s ctx fRead out).1 =
      parsedOk (parseCompile w g s ctx fRead out).1 := by
  rcases parseCompile_shape w g s ctx fRead out with ⟨bs, e, he⟩ | ⟨bs, he⟩ | ⟨bs, e, n, fs, he⟩ <;>
    · rw [he]
      simp [compiles, parsedOk, parserOf]

theorem fileBody_compiles {σ : Type} (w : World σ) (style : Nat) (g : Flags) (s : σ)
    (f : Str) :
    compiles (fileBody w style g s f).events = parsedOk (fileBody w style g s f).events := by
  rcases (fileBody_shape w style g s f).2 with ⟨h0, e, he, _⟩ | ⟨h0, e, he, _⟩ |
    ⟨h0, h1, e, he, _⟩ | ⟨h0, h1, s1, he, _⟩ | ⟨h0, s1, he, _⟩
  · rw [he]; simp [compiles, parsedOk]
  · rw [he]; simp [compiles, parsedOk]
  · rw [he]; simp [compiles, parsedOk]
  · rw [he, compiles_append, parsedOk_append, parseCompile_compiles]
    simp [compiles, parsedOk]
  · rw [he]
    simp [compiles, parsedOk, parseCompile_compiles]

/-- In the loop, the files compiled are the files whose parser returned no
error, in the same order. -/
theorem fileLoop_compiles {σ : Type} (w : World σ) (style : Nat) (args : List Str) :
    ∀ (g : Flags) (s : σ),
      compiles (fileLoop w style g s args).events =
        parsedOk (fileLoop w style g s args).events := by
  induction args with
  | nil => intro g s; rfl
  | cons f fs ih =>
    intro g s
    by_cases hp : isPartial f = true
    · rw [fileLoop_cons_skipped w style g s f fs hp]
      exact ih g s
    · have hp1 : isPartial f = false := by simpa using hp
      by_cases hf : (fileBody w style g s f).fatal = true
      · rw [fileLoop_cons_fatal w style g s f fs hp1 hf]
        exact fileBody_compiles w style g s f
      · have hf1 : (fileBody w style g s f).fatal = false := by simpa using hf
        rw [(fileLoop_cons_next w style g s f fs hp1 hf1).1, compiles_append, parsedOk_append,
          fileBody_compiles, ih]

theorem main_compiles {σ : Type} (w : World σ) (s : σ) (g : Flags) (args : List Str)
    (hargs : args ≠ []) :
    compiles (main w s g args).events = parsedOk (main w s g args).events := by
  obtain ⟨pre, mid, post, hev, hpre, hpost, hmid⟩ := main_decomposes w s g args
  rw [hev, compiles_append, compiles_append, parsedOk_append, parsedOk_append,
    compiles_quiet pre hpre, compiles_quiet post hpost, parsedOk_quiet pre hpre,
    parsedOk_quiet post hpost]
  rcases hmid with rfl | ⟨h0, _⟩ | ⟨_, s1, rfl⟩
  · rfl
  · exact absurd h0 hargs
  · rw [fileLoop_compiles]

/-- C3, as amended: in a run that gets to the loop (no `-version`, no `-h`,
no positional argument that begins with `-`), an error of the parser or of
the compiler stops nothing: when no `Open`, `MkdirAll` or `Create` fails,
every non-partial argument is opened and its parser started, in
command-line order, whatever `Start` and `Compile` return, and the files
compiled are exactly those whose parser returned no error, all the
non-partial arguments when no parser fails. A failed `Open`, `MkdirAll` or
`Create` ends the run: the trace stops at the first failed call and the
message of `log.Fatal`, with exit code 1. -/
theorem only_failed_calls_stop_the_run {σ : Type} (w : World σ) (s : σ) (g : Flags)
    (args : List Str) (hv : g.ShowVersion = false) (hh : g.Help = false)
    (hd : ∀ v ∈ args, strings.HasPrefix v "-".toList = false) :
    ((∀ x ∈ (main w s g args).events, x.failed = false) →
      opens (main w s g args).events = nonPartials args ∧
      (args ≠ [] →
        starts (main w s g args).events = nonPartials args ∧
        compiles (main w s g args).events = parsedOk (main w s g args).events ∧
        ((∀ x ∈ (main w s g args).events, x.parseFailed = false) →
          compiles (main w s g args).events = nonPartials args))) ∧
    ((∃ x ∈ (main w s g args).events, x.failed = true) →
      ∃ pre x m, (main w s g args).events = pre ++ [x, .log m] ∧ x.failed = true ∧
        (∀ y ∈ pre, y.failed = false) ∧ (main w s g args).exit = .exited 1) := by
  obtain ⟨h1, h2⟩ := main_stops w s g args hv hh hd
  refine ⟨fun hall => ⟨(h1 hall).1, fun hargs => ?_⟩, h2⟩
  have hs := (h1 hall).2 hargs
  have hc := main_compiles w s g args hargs
  refine ⟨hs, hc, fun hok => ?_⟩
  rw [hc, parsedOk_eq_starts _ hok, hs]

theorem only_failed_calls_stop_the_run_witness :
    (starts (main (sampleWorld [] ["a.scss".toList] ["b.scss".toList]) 0 { Gen := [] }
        ["a.scss".toList, "b.scss".toList, "_p.scss".toList, "c.scss".toList]).events =
      ["a.scss".toList, "b.scss".toList, "c.scss".toList]) ∧
    (compiles (main (sampleWorld [] ["a.scss".toList] ["b.scss".toList]) 0 { Gen := [] }
        ["a.scss".toList, "b.scss".toList, "_p.scss".toList, "c.scss".toList]).events =
      ["b.scss".toList, "c.scss".toList]) ∧
    (compiles (main (sampleWorld [] [] ["b.scss".toList]) 0 { Gen := [] }
        ["a.scss".toList, "b.scss".toList, "c.scss".toList]).events =
      ["a.scss".toList, "b.scss".toList, "c.scss".toList]) ∧
    (∃ pre x m,
      (main (sampleWorld ["b.scss".toList] [] []) 0 { Gen := [] }
        ["a.scss".toList, "b.scss".toList, "c.scss".toList]).events = pre ++ [x, .log m] ∧
      x.failed = true ∧ (∀ y ∈ pre, y.failed = false) ∧
      (main (sampleWorld ["b.scss".toList] [] []) 0 { Gen := [] }
        ["a.scss".toList, "b.scss".toList, "c.scss".toList]).exit = .exited 1) :=
  ⟨(((only_failed_calls_stop_the_run
      (sampleWorld [] ["a.scss".toList] ["b.scss".toList]) 0 { Gen := [] }
      ["a.scss".toList, "b.scss".toList, "_p.scss".toList, "c.scss".toList]
      rfl rfl (by decide)).1 (by decide)).2 (by decide)).1.trans (by decide),
   (((only_failed_calls_stop_the_run
      (sampleWorld [] ["a.scss".toList] ["b.scss".toList]) 0 { Gen := [] }
      ["a.scss".toList, "b.scss".toList, "_p.scss".toList, "c.scss".toList]
      rfl rfl (by decide)).1 (by decide)).2 (by decide)).2.1.trans (by decide),
   ((((only_failed_calls_stop_the_run
      (sampleWorld [] [] ["b.scss".toList]) 0 { Gen := [] }
      ["a.scss".toList, "b.scss".toList, "c.scss".toList]
      rfl rfl (by decide)).1 (by decide)).2 (by decide)).2.2 (by decide)).trans (by decide),
   (only_failed_calls_stop_the_run (sampleWorld ["b.scss".toList] [] []) 0 { Gen := [] }
      ["a.scss".toList, "b.scss".toList, "c.scss".toList] rfl rfl (by decide)).2
      ⟨.opened "b.scss".toList 0 (some "no such file".toList), by decide, rfl⟩⟩

/-! ## The check of the positional arguments -/

theorem find_first (q : Str → Bool) (before : List Str) (v : Str) (after : List Str)
    (hb : ∀ u ∈ before, q u = false) (hv : q v = true) :
    (before ++ v :: after).find? q = some v := by
  induction before with
  | nil => simp [List.find?, hv]
  | cons u us ih =>
    have hu : q u = false := hb u (by simp)
    simp only [List.cons_append, List.find?, hu]
    exact ih (fun x hx => hb x (by simp [hx]))

/-- C10, as amended. With `-version` the run prints the version and exits
with code 0 whatever the arguments are. Without it, when `-cpuprofile` names
a file that cannot be created the run ends on that error. Otherwise, when a
positional argument begins with `-`, the run ends with exit code 1 on the
message "Please specify flags before other arguments: " and the first such
argument; the trace holds nothing else but the start of the profiler, so no
input file is opened, no directory or output file is created and neither
the parser nor the compiler is started. When no positional argument begins
with `-` the check passes and the run goes on with the rest of `main`. -/
theorem flags_come_first {σ : Type} (w : World σ) (s : σ) (g : Flags) (args : List Str) :
    (g.ShowVersion = true →
      (main w s g args).events = [.print version] ∧ (main w s g args).exit = .exited 0) ∧
    (g.ShowVersion = false → g.cpuprofile ≠ [] →
      ∀ e, (w.Create s g.cpuprofile).2.2 = some e →
        (main w s g args).events =
          [.created g.cpuprofile (w.Create s g.cpuprofile).2.1 (some e), .log e] ∧
        (main w s g args).exit = .exited 1) ∧
    (g.ShowVersion = false →
      ∀ before v after, args = before ++ v :: after →
        (∀ u ∈ before, strings.HasPrefix u "-".toList = false) →
        strings.HasPrefix v "-".toList = true →
        (g.cpuprofile = [] →
          (main w s g args).events = [.log (flagsFirst v)] ∧
          (main w s g args).exit = .exited 1) ∧
        (g.cpuprofile ≠ [] → (w.Create s g.cpuprofile).2.2 = none →
          (main w s g args).events =
            [.created g.cpuprofile (w.Create s g.cpuprofile).2.1 none,
              .log "Starting profiler".toList,
              .startCPUProfile (w.Create s g.cpuprofile).2.1,
              .log (flagsFirst v)] ∧
          (main w s g args).exit = .exited 1)) ∧
    ((∀ v ∈ args, strings.HasPrefix v "-".toList = false) →
      (∀ (s1 : σ) (ds : List Deferred),
        checked w s1 g args ds = afterCheck w s1 g args ds) ∧
      (g.ShowVersion = false → g.cpuprofile = [] →
        main w s g args = afterCheck w s g args [])) := by
  refine ⟨?_, ?_, ?_, ?_⟩
  · intro hv
    simp [main, hv]
  · intro hv hc e he
    simp [main, hv, hc, he]
  · intro hv before v after hargs hb hq
    have hf : args.find? (fun v => strings.HasPrefix v "-".toList) = some v := by
      rw [hargs]
      exact find_first _ before v after hb hq
    refine ⟨?_, ?_⟩
    · intro hc
      unfold main
      simp only [hv, Bool.false_eq_true, if_false, hc, ne_eq, not_true_eq_false]
      unfold checked
      rw [hf]
      exact ⟨rfl, rfl⟩
    · intro hc hcr
      unfold main
      simp only [hv, Bool.false_eq_true, if_false, ne_eq, hc, not_false_eq_true, if_true, hcr]
      unfold checked
      rw [hf]
      exact ⟨rfl, rfl⟩
  · intro h
    have hf : args.find? (fun v => strings.HasPrefix v "-".toList) = none := by
      rw [List.find?_eq_none]
      intro v hv1
      rw [h v hv1]
      exact Bool.false_ne_true
    refine ⟨?_, ?_⟩
    · intro s1 ds
      unfold checked
      rw [hf]
    · intro hv hc
      unfold main checked
      rw [hf]
      simp [hv, hc]

theorem flags_come_first_witness :
    ((main (sampleWorld [] [] []) 0 { ShowVersion := true } ["a.scss".toList]).events =
        [.print version] ∧
      (main (sampleWorld [] [] []) 0 { ShowVersion := true } ["a.scss".toList]).exit =
        .exited 0) ∧
    ((main (sampleWorld [] [] []) 0 {} ["a.scss".toList, "-x".toList, "-y".toList]).events =
        [.log (flagsFirst "-x".toList)] ∧
      (main (sampleWorld [] [] []) 0 {} ["a.scss".toList, "-x".toList, "-y".toList]).exit =
        .exited 1) ∧
    ((main (sampleWorld [] [] []) 0 { cpuprofile := "prof".toList }
        ["-x".toList, "a.scss".toList]).events =
        [.created "prof".toList 3 none, .log "Starting profiler".toList,
          .startCPUProfile 3, .log (flagsFirst "-x".toList)] ∧
      (main (sampleWorld [] [] []) 0 { cpuprofile := "prof".toList }
        ["-x".toList, "a.scss".toList]).exit = .exited 1) ∧
    ((main readOnlyWorld 0 { cpuprofile := "prof".toList } ["-x".toList]).events =
        [.created "prof".toList 0 (some "permission denied".toList),
          .log "permission denied".toList] ∧
      (main readOnlyWorld 0 { cpuprofile := "prof".toList } ["-x".toList]).exit =
        .exited 1) ∧
    main (sampleWorld [] [] []) 0 {} ["a.scss".toList] =
      afterCheck (sampleWorld [] [] []) 0 {} ["a.scss".toList] [] :=
  ⟨(flags_come_first (sampleWorld [] [] []) 0 { ShowVersion := true }
      ["a.scss".toList]).1 rfl,
   ((flags_come_first (sampleWorld [] [] []) 0 {}
      ["a.scss".toList, "-x".toList, "-y".toList]).2.2.1 rfl ["a.scss".toList] "-x".toList
      ["-y".toList] rfl (by decide) (by decide)).1 rfl,
   ((flags_come_first (sampleWorld [] [] []) 0 { cpuprofile := "prof".toList }
      ["-x".toList, "a.scss".toList]).2.2.1 rfl [] "-x".toList ["a.scss".toList] rfl
      (by decide) (by decide)).2 (by decide) rfl,
   (flags_come_first readOnlyWorld 0 { cpuprofile := "prof".toList }
      ["-x".toList]).2.1 rfl (by decide) "permission denied".toList rfl,
   ((flags_come_first (sampleWorld [] [] []) 0 {} ["a.scss".toList]).2.2.2
      (by decide)).2 rfl rfl⟩

/-! ## Imports are spliced in place, on the modelled preprocessor -/

namespace Spec

theorem splice_assoc (a b c : Assembled) : (a.splice b).splice c = a.splice (b.splice c) := by
  simp [Assembled.splice]

theorem empty_splice (a : Assembled) : (⟨[], []⟩ : Assembled).splice a = a := by
  simp [Assembled.splice]

theorem append_eq_splice (a : Assembled) (text : List Str) (file : Str) (n : Nat) :
    a.append text file n = a.splice ((⟨[], []⟩ : Assembled).append text file n) := by
  simp [Assembled.splice, Assembled.append]

theorem appendAt_eq_splice (a : Assembled) (text : List Str) (file : Str) (n : Nat) :
    a.appendAt text file n = a.splice ((⟨[], []⟩ : Assembled).appendAt text file n) := by
  simp [Assembled.splice, Assembled.appendAt]

/-- What `assemble` adds to its buffer does not depend on the buffer: it is
what it assembles from the empty one, spliced after it. -/
theorem assemble_acc (cfg : Config) (fs : Files) (recur : Str → Except ParseError Assembled)
    (stack : List Str) (file : Str) (ds : List Directive) :
    ∀ acc, assemble cfg fs recur stack file ds acc =
      match assemble cfg fs recur stack file ds ⟨[], []⟩ with
      | .ok r => .ok (acc.splice r)
      | .error e => .error e := by
  induction ds with
  | nil => intro acc; simp [assemble, Assembled.splice]
  | cons d ds ih =>
    intro acc
    cases d with
    | Import n target =>
      simp only [assemble]
      cases resolve fs target (filepath.Dir file) cfg.includePaths with
      | error e => rfl
      | ok p =>
        simp only []
        by_cases hp : p ∈ stack
        · simp [hp]
        · simp only [hp, if_false]
          cases recur p with
          | error e => rfl
          | ok child =>
            simp only []
            rw [ih (acc.splice child), ih ((⟨[], []⟩ : Assembled).splice child)]
            cases assemble cfg fs recur stack file ds ⟨[], []⟩ with
            | error e => rfl
            | ok r => simp [splice_assoc, empty_splice]
    | SpriteRule n name args =>
      simp only [assemble]
      cases cfg.expand name args with
      | error e => rfl
      | ok text =>
        simp only []
        rw [ih (acc.appendAt text file n), ih ((⟨[], []⟩ : Assembled).appendAt text file n)]
        cases assemble cfg fs recur stack file ds ⟨[], []⟩ with
        | error e => rfl
        | ok r =>
          simp only []
          rw [appendAt_eq_splice acc, splice_assoc]
    | CustomFunctionCall n text =>
      simp only [assemble]
      rw [ih (acc.appendAt text file n), ih ((⟨[], []⟩ : Assembled).appendAt text file n)]
      cases assemble cfg fs recur stack file ds ⟨[], []⟩ with
      | error e => rfl
      | ok r =>
        simp only []
        rw [appendAt_eq_splice acc, splice_assoc]
    | PlainRun n text =>
      simp only [assemble]
      rw [ih (acc.append text file n), ih ((⟨[], []⟩ : Assembled).append text file n)]
      cases assemble cfg fs recur stack file ds ⟨[], []⟩ with
      | error e => rfl
      | ok r =>
        simp only []
        rw [append_eq_splice acc, splice_assoc]

/-- Joining a plain line to the run after it changes nothing in what is
assembled. -/
theorem assemble_plainCons (cfg : Config) (fs : Files)
    (recur : Str → Except ParseError Assembled) (stack : List Str) (file : Str) (n : Nat)
    (l : Str) (ds : List Directive) (acc : Assembled) :
    assemble cfg fs recur stack file (plainCons n l ds) acc =
      assemble cfg fs recur stack file ds (acc.append [l] file n) := by
  cases ds with
  | nil => simp [plainCons, assemble]
  | cons d ds =>
    cases d with
    | PlainRun m text =>
      by_cases hm : m = n + 1
      · subst hm
        simp only [plainCons, if_true, assemble]
        congr 1
        simp [Assembled.append, List.range_succ_eq_map, Nat.add_assoc, Nat.add_comm 1,
          Function.comp_def]
      · simp [plainCons, hm, assemble]
    | _ => simp [plainCons, assemble]

/-- A plain line goes to the output as it is, mapped to its own file and
line, before what the lines after it give. -/
theorem parseLines_plain_cons (cfg : Config) (fs : Files)
    (recur : Str → Except ParseError Assembled) (stack : List Str) (file : Str) (n : Nat)
    (l : Str) (rest : List Str) (hl : cfg.plain l = true) :
    parseLines cfg fs recur stack file n (l :: rest) =
      match parseLines cfg fs recur stack file (n + 1) rest with
      | .ok r => .ok ⟨l :: r.buffer, ⟨file, n⟩ :: r.map⟩
      | .error e => .error e := by
  have h1 : importTargets l = none := by
    simp only [Config.plain, Bool.and_eq_true, Option.isNone_iff_eq_none] at hl
    exact hl.1.1
  have h2 : cfg.sprite l = none := by
    simp only [Config.plain, Bool.and_eq_true, Option.isNone_iff_eq_none] at hl
    exact hl.1.2
  have h3 : cfg.custom l = false := by
    simp only [Config.plain, Bool.and_eq_true, Bool.not_eq_true'] at hl
    exact hl.2
  unfold parseLines
  rw [scan]
  cases scan cfg file (n + 1) rest with
  | error e => rfl
  | ok ds =>
    simp only [h1, h2, h3, Bool.false_eq_true, if_false]
    rw [assemble_plainCons, assemble_acc]
    cases assemble cfg fs recur stack file ds ⟨[], []⟩ with
    | error e => rfl
    | ok r => simp [Assembled.splice, Assembled.append, List.range_succ]

/-- An import line gives the whole output of the imported file, with the
entries of that file as they are, before what the lines after it give. -/
theorem parseLines_import_cons (cfg : Config) (fs : Files)
    (recur : Str → Except ParseError Assembled) (stack : List Str) (file : Str) (n : Nat)
    (imp target : Str) (rest : List Str) (p : Str) (child : Assembled)
    (hi : importTargets imp = some (some [target]))
    (hr : resolve fs target (filepath.Dir file) cfg.includePaths = .ok p)
    (hs : p ∉ stack) (hc : recur p = .ok child) :
    parseLines cfg fs recur stack file n (imp :: rest) =
      match parseLines cfg fs recur stack file (n + 1) rest with
      | .ok r => .ok (child.splice r)
      | .error e => .error e := by
  unfold parseLines
  rw [scan]
  cases scan cfg file (n + 1) rest with
  | error e => rfl
  | ok ds =>
    simp only [hi, List.map_cons, List.map_nil, List.singleton_append, assemble, hr, hs,
      if_false, hc]
    rw [assemble_acc]
    cases assemble cfg fs recur stack file ds ⟨[], []⟩ with
    | error e => rfl
    | ok r => simp [empty_splice]

theorem range_map_cons (file : Str) (n k : Nat) :
    (⟨file, n⟩ : Entry) :: (List.range k).map (fun i => (⟨file, n + 1 + i⟩ : Entry)) =
      (List.range (k + 1)).map (fun i => (⟨file, n + i⟩ : Entry)) := by
  simp [List.range_succ_eq_map, Function.comp_def, Nat.add_assoc, Nat.add_comm 1]

/-- Plain lines are assembled as they are, each mapped to its own line. -/
theorem parseLines_plain (cfg : Config) (fs : Files)
    (recur : Str → Except ParseError Assembled) (stack : List Str) (file : Str)
    (ls : List Str) (h : ∀ l ∈ ls, cfg.plain l = true) :
    ∀ n, parseLines cfg fs recur stack file n ls =
      .ok ⟨ls, (List.range ls.length).map (fun i => ⟨file, n + i⟩)⟩ := by
  induction ls with
  | nil => intro n; rfl
  | cons l rest ih =>
    intro n
    rw [parseLines_plain_cons cfg fs recur stack file n l rest (h l (by simp)),
      ih (fun x hx => h x (by simp [hx])) (n + 1)]
    simp only [List.length_cons]
    rw [range_map_cons]

/-- Plain lines, an import, then any lines: the output is the plain lines,
the output of the imported file in the place of the import, then the output
of the lines after it. -/
theorem parseLines_splice (cfg : Config) (fs : Files)
    (recur : Str → Except ParseError Assembled) (stack : List Str) (file : Str)
    (imp target : Str) (rest : List Str) (p : Str) (child tail : Assembled)
    (hi : importTargets imp = some (some [target]))
    (hr : resolve fs target (filepath.Dir file) cfg.includePaths = .ok p)
    (hs : p ∉ stack) (hc : recur p = .ok child) (before : List Str)
    (hb : ∀ l ∈ before, cfg.plain l = true) :
    ∀ n, parseLines cfg fs recur stack file (n + before.length + 1) rest = .ok tail →
      parseLines cfg fs recur stack file n (before ++ imp :: rest) =
        .ok ⟨before ++ child.buffer ++ tail.buffer,
          (List.range before.length).map (fun i => ⟨file, n + i⟩) ++ child.map ++
            tail.map⟩ := by
  induction before with
  | nil =>
    intro n ht
    rw [List.nil_append, parseLines_import_cons cfg fs recur stack file n imp target rest p
      child hi hr hs hc]
    simp only [List.length_nil, Nat.add_zero] at ht
    rw [ht]
    simp [Assembled.splice]
  | cons l bs ih =>
    intro n ht
    have ht1 : parseLines cfg fs recur stack file (n + 1 + bs.length + 1) rest = .ok tail := by
      have : n + 1 + bs.length + 1 = n + (l :: bs).length + 1 := by
        simp only [List.length_cons]; omega
      rw [this]; exact ht
    rw [List.cons_append, parseLines_plain_cons cfg fs recur stack file n l _ (hb l (by simp)),
      ih (fun x hx => hb x (by simp [hx])) (n + 1) ht1]
    simp only [List.length_cons, List.cons_append]
    rw [← range_map_cons]
    rfl

/-- C7: the Parser splices each imported file's text in place of the import
directive, in depth-first inclusion order. For a file whose lines are the
plain lines `before`, an import of a file that parses to `child`, and the
lines `rest` that parse to `tail`: the pass succeeds, its buffer is `before`,
then the whole buffer of the imported file (with whatever that file
imported, already spliced in it), then `tail`, and the line map sends the
lines of `before` to their own file and line, keeps the entries of the
imported file as they are, and then has those of `tail`. Plain lines after
the import are assembled as they are. In the scenario of §8 (`a.scss` is
`@import "b";` then `div { color: red; }`, `b.scss` is
`span { color: blue; }`) the buffer has the line of `b.scss` before the line
of `a.scss`, `lookup(1)` is `(b.scss, 1)` and `lookup(2)` is `(a.scss, 2)`. -/
theorem import_is_spliced_in_place (cfg : Config) (fs : Files) (root : Str) (depth : Nat)
    (stack : List Str) (path text : Str) (before : List Str) (imp target : Str)
    (rest : List Str) (p : Str) (child tail : Assembled)
    (hload : load fs root (filepath.Dir (importer stack path) :: cfg.includePaths) path =
      .ok text)
    (hl : lines text = before ++ imp :: rest)
    (hb : ∀ l ∈ before, cfg.plain l = true)
    (hi : importTargets imp = some (some [target]))
    (hr : resolve fs target (filepath.Dir path) cfg.includePaths = .ok p)
    (hs : p ∉ path :: stack)
    (hc : parseFile cfg fs root depth (path :: stack) p = .ok child)
    (ht : parseLines cfg fs (fun q => parseFile cfg fs root depth (path :: stack) q)
      (path :: stack) path (before.length + 2) rest = .ok tail) :
    parseFile cfg fs root (depth + 1) stack path =
      .ok ⟨before ++ child.buffer ++ tail.buffer,
        (List.range before.length).map (fun i => ⟨path, 1 + i⟩) ++ child.map ++ tail.map⟩ ∧
    (∀ i, i < before.length →
      LookupFile (parseFile cfg fs root (depth + 1) stack path) (i + 1) =
        some ⟨path, i + 1⟩) ∧
    (∀ i, i < child.map.length →
      LookupFile (parseFile cfg fs root (depth + 1) stack path) (before.length + i + 1) =
        lookup child (i + 1)) ∧
    (∀ j, j < tail.map.length →
      LookupFile (parseFile cfg fs root (depth + 1) stack path)
          (before.length + child.map.length + j + 1) = lookup tail (j + 1)) ∧
    (∀ (ls : List Str) (n : Nat), (∀ l ∈ ls, cfg.plain l = true) →
      parseLines cfg fs (fun q => parseFile cfg fs root depth (path :: stack) q)
        (path :: stack) path n ls =
        .ok ⟨ls, (List.range ls.length).map (fun i => ⟨path, n + i⟩)⟩) ∧
    (∀ ta tb : Str,
      lines ta = ["@import \"b\";".toList, "div { color: red; }".toList] →
      lines tb = ["span { color: blue; }".toList] →
      Start plainConfig (twoFiles ta tb) "a.scss".toList =
        .ok ⟨["span { color: blue; }".toList, "div { color: red; }".toList],
          [⟨"b.scss".toList, 1⟩, ⟨"a.scss".toList, 2⟩]⟩ ∧
      LookupFile (Start plainConfig (twoFiles ta tb) "a.scss".toList) 1 =
        some ⟨"b.scss".toList, 1⟩ ∧
      LookupFile (Start plainConfig (twoFiles ta tb) "a.scss".toList) 2 =
        some ⟨"a.scss".toList, 2⟩) := by
  have hmain : parseFile cfg fs root (depth + 1) stack path =
      .ok ⟨before ++ child.buffer ++ tail.buffer,
        (List.range before.length).map (fun i => ⟨path, 1 + i⟩) ++ child.map ++
          tail.map⟩ := by
    have ht1 : parseLines cfg fs (fun q => parseFile cfg fs root depth (path :: stack) q)
        (path :: stack) path (1 + before.length + 1) rest = .ok tail := by
      have : 1 + before.length + 1 = before.length + 2 := by omega
      rw [this]; exact ht
    unfold parseFile
    simp only [hload, hl]
    exact parseLines_splice cfg fs _ (path :: stack) path imp target rest p child tail hi hr
      hs hc before hb 1 ht1
  refine ⟨hmain, ?_, ?_, ?_, ?_, ?_⟩
  · intro i hi1
    rw [hmain]
    simp [LookupFile, lookup, List.getElem?_append_left, hi1, Nat.add_comm]
  · intro i hi1
    rw [hmain]
    simp only [LookupFile, lookup, Nat.add_one_ne_zero, if_false, Nat.add_sub_cancel,
      List.append_assoc]
    rw [List.getElem?_append_right (by simp), List.getElem?_append_left (by simpa using hi1)]
    simp
  · intro j hj
    rw [hmain]
    simp only [LookupFile, lookup, Nat.add_one_ne_zero, if_false, Nat.add_sub_cancel]
    rw [List.getElem?_append_right (by simp)]
    simp
  · intro ls n hp
    exact parseLines_plain cfg fs _ (path :: stack) path ls hp n
  · intro ta tb ha htb
    have hchild : parseFile plainConfig (twoFiles ta tb) "a.scss".toList 2
        ["a.scss".toList] "b.scss".toList =
        .ok ⟨["span { color: blue; }".toList], [⟨"b.scss".toList, 1⟩]⟩ := by
      have hload1 : load (twoFiles ta tb) "a.scss".toList
          (filepath.Dir (importer ["a.scss".toList] "b.scss".toList) ::
            plainConfig.includePaths) "b.scss".toList = .ok tb := rfl
      unfold parseFile
      simp only [hload1, htb]
      rw [parseLines_plain plainConfig _ _ _ _ _ (by decide) 1]
      rfl
    have hstart : Start plainConfig (twoFiles ta tb) "a.scss".toList =
        .ok ⟨["span { color: blue; }".toList, "div { color: red; }".toList],
          [⟨"b.scss".toList, 1⟩, ⟨"a.scss".toList, 2⟩]⟩ := by
      have hload1 : load (twoFiles ta tb) "a.scss".toList
          (filepath.Dir (importer [] "a.scss".toList) :: plainConfig.includePaths)
          "a.scss".toList = .ok ta := rfl
      show parseFile plainConfig (twoFiles ta tb) "a.scss".toList 3 [] "a.scss".toList = _
      unfold parseFile
      simp only [hload1, ha]
      exact parseLines_splice plainConfig (twoFiles ta tb) _ ["a.scss".toList]
        "a.scss".toList "@import \"b\";".toList "b".toList ["div { color: red; }".toList]
        "b.scss".toList ⟨["span { color: blue; }".toList], [⟨"b.scss".toList, 1⟩]⟩
        ⟨["div { color: red; }".toList], [⟨"a.scss".toList, 2⟩]⟩
        (by decide) rfl (by decide) hchild [] (by decide) 1
        (by rw [parseLines_plain plainConfig _ _ _ _ _ (by decide)]; rfl)
    rw [hstart]
    exact ⟨rfl, rfl, rfl⟩

/-- The files of a nested import: `a.scss` imports `b.scss` between two of
its lines, and `b.scss` imports `c.scss` between two of its lines. -/
theorem import_is_spliced_in_place_witness :
    parseFile plainConfig
        [("a.scss".toList, some "p { }\n@import \"b\";\ndiv { color: red; }\n".toList),
          ("b.scss".toList, some "span { color: blue; }\n@import \"c\";\ni { }\n".toList),
          ("c.scss".toList, some "em { }\n".toList)]
        "a.scss".toList 4 [] "a.scss".toList =
      .ok ⟨["p { }".toList, "span { color: blue; }".toList, "em { }".toList, "i { }".toList,
          "div { color: red; }".toList],
        [⟨"a.scss".toList, 1⟩, ⟨"b.scss".toList, 1⟩, ⟨"c.scss".toList, 1⟩,
          ⟨"b.scss".toList, 3⟩, ⟨"a.scss".toList, 3⟩]⟩ :=
  (import_is_spliced_in_place plainConfig
    [("a.scss".toList, some "p { }\n@import \"b\";\ndiv { color: red; }\n".toList),
      ("b.scss".toList, some "span { color: blue; }\n@import \"c\";\ni { }\n".toList),
      ("c.scss".toList, some "em { }\n".toList)]
    "a.scss".toList 3 [] "a.scss".toList
    "p { }\n@import \"b\";\ndiv { color: red; }\n".toList
    ["p { }".toList] "@import \"b\";".toList "b".toList ["div { color: red; }".toList]
    "b.scss".toList
    ⟨["span { color: blue; }".toList, "em { }".toList, "i { }".toList],
      [⟨"b.scss".toList, 1⟩, ⟨"c.scss".toList, 1⟩, ⟨"b.scss".toList, 3⟩]⟩
    ⟨["div { color: red; }".toList], [⟨"a.scss".toList, 3⟩]⟩
    rfl (by decide) (by decide) (by decide) rfl (by decide) rfl rfl).1

end Spec

end Wt
